import Mathlib

/-!
Verification of the fluent_cli Flask frontends (src/frontend.py and
src/frontend_secure.py) against their natural-language specification.

The two Python files are shallowly embedded below.  JSON request payloads are
modelled by `FluentCli.JValue` (strings, integers, booleans, and lists of
strings — the value shapes the handlers actually distinguish), a request body
by an association list `FluentCli.Data` in insertion order (Python dicts
preserve insertion order and have distinct keys; lookups take the first
occurrence).  Python string slicing `s[:n]` is `pyTake`, `str.split()` is
`pySplit`, `str(v)` is `pyStr` (Python `repr` of strings is modelled for
strings that contain no single quote, backslash or control character — every
string the proofs evaluate it on is of that shape).  External process
execution is a parameter: a `runner` function from the argument vector to an
outcome, so that the exact vector handed to process creation is observable.
-/

namespace FluentCli

/-- JValue models the JSON values the handlers distinguish: strings, integers,
booleans and lists of strings (enough to express a non-string field holding
shell metacharacters, as in frontend_secure.py's `str()` conversions). -/
inductive JValue where
  | jstr (s : String)
  | jnum (n : Int)
  | jbool (b : Bool)
  | jlist (xs : List String)
deriving DecidableEq, Repr

/-- Data models a parsed JSON object (`request.json`): an association list in
insertion order. -/
abbrev Data := List (String × JValue)

/-- pyGet models `data.get(k)` / `data[k]`: the value at the first occurrence
of the key. -/
def pyGet (d : Data) (k : String) : Option JValue :=
  (d.find? (fun p => p.1 == k)).map (·.2)

/-- truthy models Python truthiness of a JSON value. -/
def JValue.truthy : JValue → Bool
  | .jstr s => !s.isEmpty
  | .jnum n => n != 0
  | .jbool b => b
  | .jlist xs => !xs.isEmpty

/-- isStr tells whether a value is a string (`isinstance(value, str)`). -/
def JValue.isStr : JValue → Bool
  | .jstr _ => true
  | _ => false

/-- sq is the ASCII single-quote character used by Python string repr. -/
def sq : Char := Char.ofNat 39

/-- sqS is the single-quote as a one-character string. -/
def sqS : String := String.mk [sq]

/-- pyRepr models Python `repr` on the embedded values (string repr is modelled
for strings without single quotes, backslashes or control characters). -/
def JValue.pyRepr : JValue → String
  | .jstr s => sqS ++ s ++ sqS
  | .jnum n => toString n
  | .jbool b => if b then "True" else "False"
  | .jlist xs => "[" ++ String.intercalate ", " (xs.map (fun s => sqS ++ s ++ sqS)) ++ "]"

/-- pyStr models Python `str` on the embedded values. -/
def JValue.pyStr : JValue → String
  | .jstr s => s
  | v => v.pyRepr

/-- dataStr models `str(data)` for a dict: `{k1: v1, ...}` with repr of keys
and values. -/
def dataStr (d : Data) : String :=
  "\x7b" ++ String.intercalate ", " (d.map (fun p => (JValue.jstr p.1).pyRepr ++ ": " ++ p.2.pyRepr)) ++ "\x7d"

/-- pyTake models Python slicing `s[:n]` (by characters). -/
def pyTake (s : String) (n : Nat) : String := String.mk (s.data.take n)

/-- isPySpace models Python's regex/`str.split` whitespace class (ASCII). -/
def isPySpace (c : Char) : Bool :=
  c = ' ' || c = '\t' || c = '\n' || c = '\r' || c = Char.ofNat 11 || c = Char.ofNat 12

/-- nonSpace is the complement of `isPySpace`. -/
def nonSpace (c : Char) : Bool := !isPySpace c

/-- pySplitL splits a character list into the maximal runs of non-whitespace
characters, as Python `str.split()` does: a non-whitespace character starts a
fresh token when the previous character was whitespace (or the string began)
and otherwise extends the current token. -/
def pySplitL : List Char → List (List Char)
  | [] => []
  | c :: rest =>
    if isPySpace c then pySplitL rest
    else
      match rest with
      | [] => [[c]]
      | d :: _ =>
        if isPySpace d then [c] :: pySplitL rest
        else
          match pySplitL rest with
          | [] => [[c]]
          | t :: ts => (c :: t) :: ts

/-- pySplit models Python `str.split()` (no argument form). -/
def pySplit (s : String) : List String := (pySplitL s.data).map String.mk

/-- startsWithL decides whether the first list is a prefix of the second
(case-sensitive, by characters). -/
def startsWithL : List Char → List Char → Bool
  | [], _ => true
  | _ :: _, [] => false
  | p :: ps, c :: cs => c = p && startsWithL ps cs

/-- containsSub decides whether the pattern occurs as a contiguous substring
of the text. -/
def containsSub (pat : List Char) : List Char → Bool
  | [] => startsWithL pat []
  | c :: rest => startsWithL pat (c :: rest) || containsSub pat rest

/-- containsSubS is `containsSub` on strings. -/
def containsSubS (pat s : String) : Bool := containsSub pat.data s.data

/-- eqCI compares a text character against a (given lowercase) pattern
character, case-insensitively. -/
def eqCI (c p : Char) : Bool := c.toLower = p

/-- startsWithCI decides case-insensitive prefix, the pattern being given in
lowercase. -/
def startsWithCI : List Char → List Char → Bool
  | [], _ => true
  | _ :: _, [] => false
  | p :: ps, c :: cs => eqCI c p && startsWithCI ps cs

/-- containsCI decides case-insensitive substring occurrence, the pattern
being given in lowercase. -/
def containsCI (pat : List Char) : List Char → Bool
  | [] => startsWithCI pat []
  | c :: rest => startsWithCI pat (c :: rest) || containsCI pat rest

/-- VRes is the outcome of a validation step: accepted, or a ValueError
message. -/
inductive VRes where
  | ok
  | err (msg : String)
deriving DecidableEq, Repr

/-- Resp.Body is the JSON body of a response: `{output: ...}` or
`{error: ...}`. -/
inductive Body where
  | out (s : String)
  | err (s : String)
deriving DecidableEq, Repr

/-- Resp is an HTTP response: a body and a status code. -/
structure Resp where
  status : Nat
  body : Body
deriving DecidableEq, Repr

/-- StageResult is the outcome of `create_temp_file`: no file (absent/falsy
content), a created file at a path, a raised ValueError, or a raised
TypeError (non-string content reaching a string operation). -/
inductive StageResult where
  | noFile
  | created (p : String)
  | valueError (msg : String)
  | typeError
deriving DecidableEq, Repr

/-- stagedPath extracts the path a successful staging returned
(`config_file` / `pipeline_file` in the handlers). -/
def StageResult.stagedPath : StageResult → Option String
  | .created p => some p
  | _ => none

/-- stagedFiles lists the file a staging step wrote to disk. -/
def StageResult.stagedFiles : StageResult → List String
  | .created p => [p]
  | _ => []

/-! ## frontend_secure.py -/

namespace Secure

/-- MAX_REQUEST_SIZE from frontend_secure.py line 25 (10 MB). -/
def MAX_REQUEST_SIZE : Nat := 10 * 1024 * 1024

/-- MAX_REQUESTS_PER_MINUTE from frontend_secure.py line 26. -/
def MAX_REQUESTS_PER_MINUTE : Nat := 30

/-- ALLOWED_ENGINES from frontend_secure.py line 28 (identical to the inline
list in frontend.py line 50). -/
def ALLOWED_ENGINES : List String := ["openai", "anthropic", "google", "cohere", "mistral"]

/-- ALLOWED_EXTENSIONS from frontend_secure.py line 29 (identical to the
inline list in frontend.py line 186). -/
def ALLOWED_EXTENSIONS : List String := [".json", ".yaml", ".yml", ".txt"]

/-- metaChars is the character class of the pattern `[;&|` ++ "`" ++ `$()]`
in frontend_secure.py line 99. -/
def metaChars : List Char := ";&|`$()".data

/-- hasShellMeta decides the regex `[;&|$()]`-plus-backquote pattern
(frontend_secure.py line 99): some character of the class occurs. -/
def hasShellMeta (s : String) : Bool := s.data.any (fun c => metaChars.contains c)

/-- hasTraversal decides the regex `\.\./` (frontend_secure.py line 100):
the literal substring `../` occurs. -/
def hasTraversal (s : String) : Bool := containsSubS "../" s

/-- hasScriptTag decides the regex `<script` with IGNORECASE
(frontend_secure.py line 101). -/
def hasScriptTag (s : String) : Bool := containsCI "<script".data s.data

/-- execParenFrom decides whether `exec` (case-insensitive) followed by
optional whitespace and `(` matches at some position of the list: the regex
`exec\s*\(` of frontend_secure.py line 102. -/
def execParenFrom : List Char → Bool
  | [] => false
  | c :: rest =>
    (startsWithCI "exec".data (c :: rest)
      && match ((c :: rest).drop 4).dropWhile isPySpace with
         | '(' :: _ => true
         | _ => false)
    || execParenFrom rest

/-- hasExecCall decides the regex `exec\s*\(` with IGNORECASE. -/
def hasExecCall (s : String) : Bool := execParenFrom s.data

/-- hasDangerousPattern: some pattern of the `dangerous_patterns` list of
`validate_input` (frontend_secure.py lines 98-103) matches the string. -/
def hasDangerousPattern (s : String) : Bool :=
  hasShellMeta s || hasTraversal s || hasScriptTag s || hasExecCall s

/-- engineMsg is the f-string `f'Invalid engine. Allowed: {ALLOWED_ENGINES}'`. -/
def engineMsg : String :=
  "Invalid engine. Allowed: " ++ (JValue.jlist ALLOWED_ENGINES).pyRepr

/-- engineOk decides `data['engine'] in ALLOWED_ENGINES` for the value at key
`engine` (a non-string value equals no engine name). -/
def engineOk (d : Data) : Bool :=
  match pyGet d "engine" with
  | some v => ALLOWED_ENGINES.any (fun e => v == JValue.jstr e)
  | none => false

/-- scanFields is the field loop of `validate_input` (frontend_secure.py
lines 105-109): each string-valued item is scanned against the dangerous
patterns; the first hit raises `Invalid characters in {key}`; non-string
values are skipped. -/
def scanFields : Data → VRes
  | [] => .ok
  | (k, v) :: rest =>
    match v with
    | .jstr s =>
      if hasDangerousPattern s then .err ("Invalid characters in " ++ k)
      else scanFields rest
    | _ => scanFields rest

/-- validate_input embeds frontend_secure.py lines 80-111: empty payload,
serialized size, engine presence, engine allow-list, then the per-field
dangerous-pattern scan. -/
def validate_input (d : Data) : VRes :=
  if d.isEmpty then .err "No JSON data provided"
  else if MAX_REQUEST_SIZE < (dataStr d).length then .err "Request too large"
  else if !(d.any (fun p => p.1 == "engine")) then .err "Engine is required"
  else if !engineOk d then .err engineMsg
  else scanFields d

/-- sanitizeArg embeds the per-argument body of `sanitize_command_args`
(frontend_secure.py line 119) for string arguments:
`re.sub(r'[;&|$()`-class]', '', arg)[:1000]`. -/
def sanitizeArg (s : String) : String :=
  pyTake (String.mk (s.data.filter (fun c => !metaChars.contains c))) 1000

/-- sanitize_command_args embeds frontend_secure.py lines 113-123 on a vector
of strings (every vector the handler builds is all-string, so the
`isinstance` branch taken is always the string one). -/
def sanitize_command_args (args : List String) : List String := args.map sanitizeArg

/-- fluentL is the literal `fluent` of the path-redaction pattern. -/
def fluentL : List Char := "fluent".data

/-- REDP is the path placeholder of frontend_secure.py line 157. -/
def REDP : List Char := "[REDACTED_PATH]".data

/-- REDK is the key placeholder of frontend_secure.py line 158. -/
def REDK : List Char := "[REDACTED_KEY]".data

/-- pathRun is the maximal run of non-whitespace characters at the head of
the list (the span a `[^\s]*` group can cover). -/
def pathRun (l : List Char) : List Char := l.takeWhile nonSpace

/-- pathMatchHead decides whether the regex `/[^\s]*fluent[^\s]*`
(frontend_secure.py line 157, case-sensitive) matches at the head of the
list: a slash whose following non-whitespace run contains `fluent`.  Such a
match always extends to the end of that run (the trailing `[^\s]*` is
greedy). -/
def pathMatchHead : List Char → Bool
  | [] => false
  | c :: rest => c = '/' && containsSub fluentL (pathRun rest)

/-- hasPathMatch decides whether `/[^\s]*fluent[^\s]*` matches anywhere. -/
def hasPathMatch : List Char → Bool
  | [] => false
  | c :: rest => pathMatchHead (c :: rest) || hasPathMatch rest

/-- redactPathsAux scans left to right; in copy mode (`skipping = false`) a
head match emits the placeholder and switches to skip mode, which consumes
the rest of the match's non-whitespace run (a match always extends to the
end of its run, the trailing `[^\s]*` being greedy); the next whitespace
character ends a skip. -/
def redactPathsAux : Bool → List Char → List Char
  | _, [] => []
  | true, c :: rest =>
    if nonSpace c then redactPathsAux true rest
    else c :: redactPathsAux false rest
  | false, c :: rest =>
    if pathMatchHead (c :: rest) then REDP ++ redactPathsAux true rest
    else c :: redactPathsAux false rest

/-- redactPathsL embeds `re.sub(r'/[^\s]*fluent[^\s]*', '[REDACTED_PATH]',
error)`: leftmost-first, non-overlapping replacement, resuming after each
replaced span. -/
def redactPathsL (l : List Char) : List Char := redactPathsAux false l

/-- redactPaths is `redactPathsL` on strings. -/
def redactPaths (s : String) : String := String.mk (redactPathsL s.data)

/-- headIsUD decides whether the list starts with `_` or `-` (the `[_-]?`
group of the key pattern, taken non-empty). -/
def headIsUD : List Char → Bool
  | c :: _ => c = '_' || c = '-'
  | [] => false

/-- keyHd decides whether the regex `api[_-]?key[^\s]*` with IGNORECASE
(frontend_secure.py line 158) matches at the head of the list. -/
def keyHd (l : List Char) : Bool :=
  startsWithCI "api".data l
    && (startsWithCI "key".data (l.drop 3)
        || (headIsUD (l.drop 3) && startsWithCI "key".data (l.drop 4)))

/-- hasKeyMatch decides whether `api[_-]?key[^\s]*` matches anywhere. -/
def hasKeyMatch : List Char → Bool
  | [] => false
  | c :: rest => keyHd (c :: rest) || hasKeyMatch rest

/-- redactKeysAux scans left to right; in copy mode a head match emits the
placeholder and switches to skip mode, which consumes the rest of the
match's non-whitespace run (the fixed `api[_-]?key` part is all
non-whitespace and the trailing greedy `[^\s]*` extends the match to the end
of the run); the next whitespace character ends a skip. -/
def redactKeysAux : Bool → List Char → List Char
  | _, [] => []
  | true, c :: rest =>
    if nonSpace c then redactKeysAux true rest
    else c :: redactKeysAux false rest
  | false, c :: rest =>
    if keyHd (c :: rest) then REDK ++ redactKeysAux true rest
    else c :: redactKeysAux false rest

/-- redactKeysL embeds `re.sub(r'api[_-]?key[^\s]*', '[REDACTED_KEY]', error,
flags=re.IGNORECASE)`: leftmost-first, non-overlapping replacement, resuming
after each replaced span. -/
def redactKeysL (l : List Char) : List Char := redactKeysAux false l

/-- redactKeys is `redactKeysL` on strings. -/
def redactKeys (s : String) : String := String.mk (redactKeysL s.data)

/-- redactError embeds frontend_secure.py lines 156-158: if stderr is
non-empty it goes through the path redaction and then the key redaction. -/
def redactError (stderr : String) : String :=
  if stderr.isEmpty then stderr else redactKeys (redactPaths stderr)

/-- ProcResult is what `subprocess.run(capture_output=True)` returns when the
child completes within the timeout. -/
structure ProcResult where
  stdout : String
  stderr : String
  returncode : Int
deriving DecidableEq, Repr

/-- ProcOutcome is the observable behaviour of one `subprocess.run` call:
completion, `TimeoutExpired`, or some other exception. -/
inductive ProcOutcome where
  | completed (r : ProcResult)
  | timedOut
  | raised
deriving DecidableEq, Repr

/-- ExecResult packages what `execute_command_safely` produces: the
`(output, error)` pair it returns, plus the argument vector it actually
handed to process creation (`subprocess.run(safe_args, ..., shell` defaults
to `False)`, so the vector is consumed as an argv list, never re-parsed by a
shell). -/
structure ExecResult where
  output : Option String
  error : Option String
  spawned : List String
deriving DecidableEq, Repr

/-- execute_command_safely embeds frontend_secure.py lines 125-171.  The
`runner` parameter stands for the operating system: it receives exactly the
argv vector `subprocess.run` is given. -/
def execute_command_safely (runner : List String → ProcOutcome) (command_args : List String) :
    ExecResult :=
  match runner (sanitize_command_args command_args) with
  | .completed r =>
    if r.returncode != 0 then
      ⟨none, some ("Command execution failed: " ++ pyTake (redactError r.stderr) 500),
        sanitize_command_args command_args⟩
    else ⟨some r.stdout, none, sanitize_command_args command_args⟩
  | .timedOut => ⟨none, some "Command execution timed out", sanitize_command_args command_args⟩
  | .raised => ⟨none, some "Internal server error", sanitize_command_args command_args⟩

/-- extMsg is the f-string `f"Invalid extension. Allowed:
{ALLOWED_EXTENSIONS}"`. -/
def extMsg : String :=
  "Invalid extension. Allowed: " ++ (JValue.jlist ALLOWED_EXTENSIONS).pyRepr

/-- contentDangerous decides the `dangerous_patterns` scan of the secure
`create_temp_file` (frontend_secure.py lines 187-196): `<script`,
`javascript:`, `data:`, `vbscript:`, all IGNORECASE. -/
def contentDangerous (s : String) : Bool :=
  containsCI "<script".data s.data || containsCI "javascript:".data s.data
    || containsCI "data:".data s.data || containsCI "vbscript:".data s.data

/-- create_temp_file embeds frontend_secure.py lines 173-222.  `content` is
the raw JSON value `data.get(...)` produced; `p` is the random path the
`NamedTemporaryFile` call would allocate under `/tmp`; `reg` is the
process-wide `_temp_files` registry, returned updated.  Falsy content
returns no file; non-string truthy content raises `TypeError` at the first
string operation applied to it (`len` accepts lists, `re.search` does not). -/
def create_temp_file (reg : List String) (content : Option JValue) (extension : String)
    (p : String) : StageResult × List String :=
  match content with
  | none => (.noFile, reg)
  | some v =>
    if !v.truthy then (.noFile, reg)
    else
      match v with
      | .jstr s =>
        if MAX_REQUEST_SIZE < s.length then (.valueError "Content too large", reg)
        else if !ALLOWED_EXTENSIONS.contains extension then (.valueError extMsg, reg)
        else if contentDangerous s then (.valueError "Content contains dangerous patterns", reg)
        else (.created p, reg ++ [p])
      | .jlist xs =>
        if MAX_REQUEST_SIZE < xs.length then (.valueError "Content too large", reg)
        else if !ALLOWED_EXTENSIONS.contains extension then (.valueError extMsg, reg)
        else (.typeError, reg)
      | _ => (.typeError, reg)

/-- optField runs the builder fragment for one optional field: Python
`if data.get(k): ...` (absent or falsy contributes nothing). -/
def optField (d : Data) (k : String) (f : JValue → List String) : List String :=
  match pyGet d k with
  | some v => if v.truthy then f v else []
  | none => []

/-- engineToken is the element `data['engine']` appended to the vector;
`validate_input` has already established it equals one of the allow-listed
engine strings, so the non-string fallback is unreachable in the handler. -/
def engineToken (d : Data) : String :=
  match pyGet d "engine" with
  | some (.jstr e) => e
  | _ => ""

/-- overrideTokens is the override loop of frontend_secure.py lines 258-262:
`overrides.split()[:10]`, keeping tokens that are non-empty and shorter than
100 characters, two vector elements per kept token. -/
def overrideTokens (o : String) : List String :=
  (((pySplit o).take 10).filter (fun t => !t.isEmpty && t.length < 100)).flatMap
    (fun t => ["-o", t])

/-- buildCommand embeds the vector construction of frontend_secure.py lines
242-296 as a pure function of the validated request and the staged paths.
A truthy non-string `override` value makes the handler raise before this
vector is used (`.split()` on a non-string), so that case returns the vector
built up to that point-equivalent; the handler intercepts it separately. -/
def buildCommand (d : Data) (config_file pipeline_file : Option String) : List String :=
  ["fluent", engineToken d]
  ++ optField d "request" (fun v => [pyTake v.pyStr 5000])
  ++ (match config_file with
      | some p => ["-c", p]
      | none => [])
  ++ (match pyGet d "override" with
      | some (.jstr o) => if !o.isEmpty then overrideTokens o else []
      | _ => [])
  ++ optField d "additionalContextFile" (fun v => ["-a", pyTake v.pyStr 500])
  ++ optField d "upsert" (fun _ => ["--upsert"])
  ++ optField d "input" (fun v => ["-i", pyTake v.pyStr 1000])
  ++ optField d "metadata" (fun v => ["-t", pyTake v.pyStr 500])
  ++ (match pipeline_file with
      | some p =>
        ["pipeline", "--file", p]
        ++ optField d "pipelineInput" (fun v => ["--input", pyTake v.pyStr 1000])
        ++ optField d "jsonOutput" (fun _ => ["--json-output"])
        ++ optField d "runId" (fun v => ["--run-id", pyTake v.pyStr 100])
        ++ optField d "forceFresh" (fun _ => ["--force-fresh"])
      | none => [])

/-- overrideRaises decides whether building would raise `AttributeError`:
the `override` field truthy but not a string, so `.split()` fails
(caught by the generic handler as an internal error). -/
def overrideRaises (d : Data) : Bool :=
  match pyGet d "override" with
  | some v => v.truthy && !v.isStr
  | none => false

/-- SecOut is everything one request to the secure `/execute` handler
produces: the response, the temp files created during the request, the argv
vectors passed to process creation, and the final `_temp_files` registry. -/
structure SecOut where
  resp : Resp
  files : List String
  procs : List (List String)
  reg : List String
deriving DecidableEq, Repr

/-- execStage embeds frontend_secure.py lines 298-304: run the command
through `execute_command_safely` and map an executor error to a 500
response, success to a 200 with the output. -/
def execStage (runner : List String → ProcOutcome) (vec : List String)
    (files reg : List String) : SecOut :=
  match (execute_command_safely runner vec).error with
  | some e => ⟨⟨500, .err e⟩, files, [(execute_command_safely runner vec).spawned], reg⟩
  | none =>
    ⟨⟨200, .out ((execute_command_safely runner vec).output.getD "")⟩, files,
      [(execute_command_safely runner vec).spawned], reg⟩

/-- execute_fluent embeds the body of the secure `/execute` handler
(frontend_secure.py lines 230-314): validation, staging of `config` and
`pipelineFile`, vector construction, sandboxed execution; `ValueError`
maps to 400, any other exception to 500, an executor error to 500.
`cfgPath` and `pipePath` stand for the random paths the two
`NamedTemporaryFile` calls would allocate; `reg` is the incoming
`_temp_files` registry. -/
def execute_fluent (runner : List String → ProcOutcome) (cfgPath pipePath : String)
    (reg : List String) (d : Data) : SecOut :=
  match validate_input d with
  | .err e => ⟨⟨400, .err e⟩, [], [], reg⟩
  | .ok =>
    match create_temp_file reg (pyGet d "config") ".json" cfgPath with
    | (.valueError m, reg') => ⟨⟨400, .err m⟩, [], [], reg'⟩
    | (.typeError, reg') => ⟨⟨500, .err "Internal server error"⟩, [], [], reg'⟩
    | (cfgRes, reg₁) =>
      match create_temp_file reg₁ (pyGet d "pipelineFile") ".yaml" pipePath with
      | (.valueError m, reg') => ⟨⟨400, .err m⟩, cfgRes.stagedFiles, [], reg'⟩
      | (.typeError, reg') => ⟨⟨500, .err "Internal server error"⟩, cfgRes.stagedFiles, [], reg'⟩
      | (pipeRes, reg₂) =>
        if overrideRaises d then
          ⟨⟨500, .err "Internal server error"⟩,
            cfgRes.stagedFiles ++ pipeRes.stagedFiles, [], reg₂⟩
        else
          execStage runner (buildCommand d cfgRes.stagedPath pipeRes.stagedPath)
            (cfgRes.stagedFiles ++ pipeRes.stagedFiles) reg₂

/-- rate_limit_check embeds the critical section of the `rate_limit`
decorator (frontend_secure.py lines 62-74) for one client identity: prune
timestamps at least 60 seconds old, reject without recording when the
remaining count is at or above the ceiling, otherwise record `now` and
admit.  Returns (admitted?, updated window). -/
def rate_limit_check (hist : List ℚ) (now : ℚ) : Bool × List ℚ :=
  let pruned := hist.filter (fun t => now - t < 60)
  if MAX_REQUESTS_PER_MINUTE ≤ pruned.length then (false, pruned)
  else (true, pruned ++ [now])

/-- endpoint composes the `rate_limit` decorator with the handler body, as
`@app.route('/execute') @rate_limit()` does: a rate-limited request gets a
429 and the handler body never runs. -/
def endpoint (runner : List String → ProcOutcome) (cfgPath pipePath : String)
    (reg : List String) (hist : List ℚ) (now : ℚ) (d : Data) : SecOut × List ℚ :=
  match rate_limit_check hist now with
  | (false, hist') => (⟨⟨429, .err "Rate limit exceeded. Try again later."⟩, [], [], reg⟩, hist')
  | (true, hist') => (execute_fluent runner cfgPath pipePath reg d, hist')

end Secure

/-! ## frontend.py -/

namespace Plain

/-- vecRepr is Python `str` of a list of values (repr of each element),
used by `str(CalledProcessError)` and the debug log line. -/
def vecRepr (v : List JValue) : String :=
  "[" ++ String.intercalate ", " (v.map JValue.pyRepr) ++ "]"

/-- create_temp_file embeds frontend.py lines 176-213: like the secure
variant but with no dangerous-content scan and the longer size message. -/
def create_temp_file (reg : List String) (content : Option JValue) (extension : String)
    (p : String) : StageResult × List String :=
  match content with
  | none => (.noFile, reg)
  | some v =>
    if !v.truthy then (.noFile, reg)
    else
      match v with
      | .jstr s =>
        if Secure.MAX_REQUEST_SIZE < s.length then
          (.valueError "Content too large (max 10MB)", reg)
        else if !Secure.ALLOWED_EXTENSIONS.contains extension then
          (.valueError Secure.extMsg, reg)
        else (.created p, reg ++ [p])
      | .jlist xs =>
        if Secure.MAX_REQUEST_SIZE < xs.length then
          (.valueError "Content too large (max 10MB)", reg)
        else if !Secure.ALLOWED_EXTENSIONS.contains extension then
          (.valueError Secure.extMsg, reg)
        else (.typeError, reg)
      | _ => (.typeError, reg)

/-- optFieldJ runs the builder fragment for one optional field of
frontend.py, which appends raw values, not their `str()` conversions. -/
def optFieldJ (d : Data) (k : String) (f : JValue → List JValue) : List JValue :=
  match pyGet d k with
  | some v => if v.truthy then f v else []
  | none => []

/-- engineValue is the raw `data['engine']` element frontend.py line 62
appends (present whenever the engine checks passed). -/
def engineValue (d : Data) : JValue := (pyGet d "engine").getD (.jstr "")

/-- buildCommand embeds the vector construction of frontend.py lines 58-120.
Field values are appended raw (no truncation, no `str()` except where the
screen later applies it); the override loop has no token count or length
limits. -/
def buildCommand (d : Data) (config_file pipeline_file : Option String) : List JValue :=
  [.jstr "fluent", engineValue d]
  ++ optFieldJ d "request" (fun v => [v])
  ++ (match config_file with
      | some p => [.jstr "-c", .jstr p]
      | none => [])
  ++ (match pyGet d "override" with
      | some (.jstr o) =>
        ((pySplit o).filter (fun t => !t.isEmpty)).flatMap (fun t => [.jstr "-o", .jstr t])
      | _ => [])
  ++ optFieldJ d "additionalContextFile" (fun v => [.jstr "-a", v])
  ++ optFieldJ d "upsert" (fun _ => [.jstr "--upsert"])
  ++ optFieldJ d "input" (fun v => [.jstr "-i", v])
  ++ optFieldJ d "metadata" (fun v => [.jstr "-t", v])
  ++ optFieldJ d "uploadImageFile" (fun v => [.jstr "-l", v])
  ++ optFieldJ d "downloadMedia" (fun v => [.jstr "-d", v])
  ++ optFieldJ d "parseCode" (fun _ => [.jstr "-p"])
  ++ optFieldJ d "executeOutput" (fun _ => [.jstr "-x"])
  ++ optFieldJ d "markdown" (fun _ => [.jstr "-m"])
  ++ optFieldJ d "generateCypher" (fun v => [.jstr "--generate-cypher", v])
  ++ (match pipeline_file with
      | some p =>
        [.jstr "pipeline", .jstr "--file", .jstr p]
        ++ optFieldJ d "pipelineInput" (fun v => [.jstr "--input", v])
        ++ optFieldJ d "jsonOutput" (fun _ => [.jstr "--json-output"])
        ++ optFieldJ d "runId" (fun v => [.jstr "--run-id", v])
        ++ optFieldJ d "forceFresh" (fun _ => [.jstr "--force-fresh"])
      | none => [])

/-- dangerousChars is the `dangerous_chars` list of frontend.py line 123. -/
def dangerousChars : List Char :=
  [';', '&', '|', Char.ofNat 96, '$', '(', ')', '<', '>', '"', Char.ofNat 39, '\\', '\n', '\r']

/-- screenArg embeds one iteration of the argument screen (frontend.py lines
124-132): the dangerous-character test on `str(arg)`, then the traversal
test `'..' in str(arg) or arg.startswith('/')`.  For a non-string argument
whose `str()` contains no `..`, `arg.startswith` raises `AttributeError`,
which the generic handler turns into a 500. -/
def screenArg (arg : JValue) : Option (Nat × String) :=
  if arg.pyStr.data.any (fun c => dangerousChars.contains c) then
    some (400, "Invalid characters in command arguments")
  else if containsSubS ".." arg.pyStr then
    some (400, "Invalid path in arguments")
  else
    match arg with
    | .jstr s =>
      if startsWithL "/".data s.data then some (400, "Invalid path in arguments") else none
    | _ => some (500, "Internal server error")

/-- screen runs `screenArg` over the vector in order and returns the first
failure, as the `for arg in fluent_command` loop does. -/
def screen : List JValue → Option (Nat × String)
  | [] => none
  | a :: rest =>
    match screenArg a with
    | some r => some r
    | none => screen rest

/-- joinLen is `len(' '.join(fluent_command))` (frontend.py line 135); the
screen has already established every argument is a string when this runs. -/
def joinLen (v : List JValue) : Nat :=
  (String.intercalate " " (v.map JValue.pyStr)).length

/-- cpeStr models CPython's `str(subprocess.CalledProcessError)`: for a
non-negative return code, `Command '<str(cmd)>' returned non-zero exit
status <code>.`; negative codes report the signal (name resolution elided).
This stdlib formatting is not part of the repository source; it is modelled
from CPython's documented `CalledProcessError.__str__`. -/
def cpeStr (v : List JValue) (code : Int) : String :=
  if code < 0 then
    "Command " ++ sqS ++ vecRepr v ++ sqS ++ " died with unknown signal " ++ toString (-code) ++ "."
  else
    "Command " ++ sqS ++ vecRepr v ++ sqS ++ " returned non-zero exit status " ++ toString code ++ "."

/-- POut is the observable behaviour of one `subprocess.check_output` call:
decoded stdout on exit 0, `CalledProcessError` with the exit code otherwise,
`TimeoutExpired`, or another exception. -/
inductive POut where
  | ok (stdout : String)
  | fail (code : Int)
  | timeout
  | raised
deriving DecidableEq, Repr

/-- PlainOut is everything one request to frontend.py's `/execute` handler
produces: response, files created, argv vectors passed verbatim to process
creation, debug log lines, and the final registry. -/
structure PlainOut where
  resp : Resp
  files : List String
  procs : List (List JValue)
  logs : List String
  reg : List String
deriving DecidableEq, Repr

/-- engineMissing decides `'engine' not in data`. -/
def engineMissing (d : Data) : Bool := !(d.any (fun p => p.1 == "engine"))

/-- engineAllowed decides `data['engine'] in allowed_engines`
(frontend.py lines 50-51). -/
def engineAllowed (d : Data) : Bool :=
  Secure.ALLOWED_ENGINES.any (fun e => engineValue d == JValue.jstr e)

/-- logsOf is the debug log line written when `FLASK_DEBUG` enables logging
(frontend.py lines 139-140). -/
def logsOf (dbg : Bool) (vec : List JValue) : List String :=
  if dbg then ["Executing command: " ++ vecRepr vec] else []

/-- runStage embeds frontend.py lines 122-169: the argument screen, the
command length check, and the `subprocess.check_output` call with its
exception handlers (`CalledProcessError` → 500 with `str(e)`; the 1 MB
output ceiling → 413; `TimeoutExpired` has no dedicated clause and falls to
the generic 500). -/
def runStage (runner : List JValue → POut) (dbg : Bool) (vec : List JValue)
    (files reg : List String) : PlainOut :=
  match screen vec with
  | some (st, m) => ⟨⟨st, .err m⟩, files, [], [], reg⟩
  | none =>
    if 2000 < joinLen vec then ⟨⟨400, .err "Command too long"⟩, files, [], [], reg⟩
    else
      match runner vec with
      | .ok out =>
        if 1000000 < out.length then
          ⟨⟨413, .err "Output too large"⟩, files, [vec], logsOf dbg vec, reg⟩
        else ⟨⟨200, .out out⟩, files, [vec], logsOf dbg vec, reg⟩
      | .fail code => ⟨⟨500, .err (cpeStr vec code)⟩, files, [vec], logsOf dbg vec, reg⟩
      | .timeout => ⟨⟨500, .err "Internal server error"⟩, files, [vec], logsOf dbg vec, reg⟩
      | .raised => ⟨⟨500, .err "Internal server error"⟩, files, [vec], logsOf dbg vec, reg⟩

/-- execute_fluentCore embeds the body of frontend.py's `/execute` handler
(lines 38-173) with the `FLASK_DEBUG` environment read abstracted into the
boolean `dbg` (it only controls the debug log line, frontend.py lines
139-140). -/
def execute_fluentCore (runner : List JValue → POut) (dbg : Bool) (cfgPath pipePath : String)
    (reg : List String) (d : Data) : PlainOut :=
  if d.isEmpty then ⟨⟨400, .err "No JSON data provided"⟩, [], [], [], reg⟩
  else if engineMissing d then ⟨⟨400, .err "Engine is required"⟩, [], [], [], reg⟩
  else if !engineAllowed d then ⟨⟨400, .err Secure.engineMsg⟩, [], [], [], reg⟩
  else
    match create_temp_file reg (pyGet d "config") ".json" cfgPath with
    | (.valueError m, reg') => ⟨⟨400, .err m⟩, [], [], [], reg'⟩
    | (.typeError, reg') => ⟨⟨500, .err "Internal server error"⟩, [], [], [], reg'⟩
    | (cfgRes, reg₁) =>
      match create_temp_file reg₁ (pyGet d "pipelineFile") ".yaml" pipePath with
      | (.valueError m, reg') => ⟨⟨400, .err m⟩, cfgRes.stagedFiles, [], [], reg'⟩
      | (.typeError, reg') =>
        ⟨⟨500, .err "Internal server error"⟩, cfgRes.stagedFiles, [], [], reg'⟩
      | (pipeRes, reg₂) =>
        if Secure.overrideRaises d then
          ⟨⟨500, .err "Internal server error"⟩,
            cfgRes.stagedFiles ++ pipeRes.stagedFiles, [], [], reg₂⟩
        else
          runStage runner dbg (buildCommand d cfgRes.stagedPath pipeRes.stagedPath)
            (cfgRes.stagedFiles ++ pipeRes.stagedFiles) reg₂

/-- dbgOf reads `os.environ.get('FLASK_DEBUG', 'false').lower() == 'true'`. -/
def dbgOf (env : String → Option String) : Bool :=
  String.mk (((env "FLASK_DEBUG").getD "false").data.map Char.toLower) == "true"

/-- execute_fluent is the handler with its environment read in place. -/
def execute_fluent (runner : List JValue → POut) (env : String → Option String)
    (cfgPath pipePath : String) (reg : List String) (d : Data) : PlainOut :=
  execute_fluentCore runner (dbgOf env) cfgPath pipePath reg d

end Plain

/-! ## Concrete requests used by the counterexample and witness theorems -/

/-- longA is a 1001-character string of `a`: it passes every validation
check but exceeds the executor's 1000-character per-argument cap. -/
def longA : String := String.mk (List.replicate 1001 'a')

/-- d1 is a validated request whose built vector the secure executor
truncates. -/
def d1 : Data := [("engine", .jstr "openai"), ("request", .jstr longA)]

/-- d2 is a request with a double quote — a denylisted character the spec
lists — in a string field. -/
def d2 : Data := [("engine", .jstr "openai"), ("input", .jstr "say \"hi\"")]

/-- d3 is a request with a valid engine, config content, and a semicolon in
the request field, sent to frontend.py. -/
def d3 : Data := [("engine", .jstr "openai"), ("config", .jstr "x"), ("request", .jstr "a;b")]

/-- d9 is a request whose `input` field is a list containing shell
metacharacters. -/
def d9 : Data := [("engine", .jstr "openai"), ("input", .jlist ["x; rm"])]

/-- d10 is a request with a valid engine, config content, and a double quote
in the request field, sent to frontend.py. -/
def d10 : Data := [("engine", .jstr "openai"), ("config", .jstr "x"), ("request", .jstr "x\"y")]

/-- d5 is a minimal request frontend.py executes: engine plus a request
string. -/
def d5 : Data := [("engine", .jstr "openai"), ("request", .jstr "hello")]

/-- dEng is a minimal valid request. -/
def dEng : Data := [("engine", .jstr "openai")]

/-- dCfg is a request with only an engine and config content. -/
def dCfg : Data := [("engine", .jstr "openai"), ("config", .jstr "x")]


/-! ## Helper lemmas -/

namespace Secure

/-- scanFields accepts exactly when no string-valued field matches a
dangerous pattern. -/
theorem scanFields_ok_iff (d : Data) :
    scanFields d = .ok ↔
      ∀ k s, (k, JValue.jstr s) ∈ d → hasDangerousPattern s = false := by
  induction d with
  | nil => simp [scanFields]
  | cons p rest ih =>
    obtain ⟨k, v⟩ := p
    cases v with
    | jstr s =>
      rcases hds : hasDangerousPattern s with _ | _
      · simp only [scanFields, hds, Bool.false_eq_true, if_false, ih]
        constructor
        · intro hall k' s' hm
          rcases List.mem_cons.mp hm with heq | hm'
          · cases heq
            exact hds
          · exact hall k' s' hm'
        · intro hall k' s' hm'
          exact hall k' s' (List.mem_cons_of_mem _ hm')
      · simp only [scanFields, hds, if_true]
        constructor
        · intro hc; exact absurd hc (by simp)
        · intro hall; exact absurd (hall k s (by simp)) (by simp [hds])
    | jnum n =>
      simp only [scanFields, ih]
      constructor
      · intro hall k' s' hm
        rcases List.mem_cons.mp hm with heq | hm'
        · exact absurd heq (by simp)
        · exact hall k' s' hm'
      · intro hall k' s' hm'
        exact hall k' s' (List.mem_cons_of_mem _ hm')
    | jbool b =>
      simp only [scanFields, ih]
      constructor
      · intro hall k' s' hm
        rcases List.mem_cons.mp hm with heq | hm'
        · exact absurd heq (by simp)
        · exact hall k' s' hm'
      · intro hall k' s' hm'
        exact hall k' s' (List.mem_cons_of_mem _ hm')
    | jlist xs =>
      simp only [scanFields, ih]
      constructor
      · intro hall k' s' hm
        rcases List.mem_cons.mp hm with heq | hm'
        · exact absurd heq (by simp)
        · exact hall k' s' hm'
      · intro hall k' s' hm'
        exact hall k' s' (List.mem_cons_of_mem _ hm')

/-- scanFields, when some string-valued field is dangerous, rejects with a
message naming a field whose value is dangerous. -/
theorem scanFields_err_of (d : Data)
    (hex : ∃ k s, (k, JValue.jstr s) ∈ d ∧ hasDangerousPattern s = true) :
    ∃ k s, (k, JValue.jstr s) ∈ d ∧ hasDangerousPattern s = true ∧
      scanFields d = .err ("Invalid characters in " ++ k) := by
  induction d with
  | nil => simp at hex
  | cons p rest ih =>
    obtain ⟨k, v⟩ := p
    cases v with
    | jstr s =>
      rcases hds : hasDangerousPattern s with _ | _
      · obtain ⟨k', s', hm, hd, heq⟩ :=
          ih (by
            obtain ⟨k2, s2, hm, hd⟩ := hex
            rcases List.mem_cons.mp hm with heq | hm'
            · cases heq
              exact absurd hd (by simp [hds])
            · exact ⟨k2, s2, hm', hd⟩)
        exact ⟨k', s', List.mem_cons_of_mem _ hm, hd,
          by simp [scanFields, hds, heq]⟩
      · exact ⟨k, s, by simp, hds, by simp [scanFields, hds]⟩
    | jnum n =>
      obtain ⟨k', s', hm, hd, heq⟩ :=
        ih (by
          obtain ⟨k2, s2, hm, hd⟩ := hex
          rcases List.mem_cons.mp hm with heq | hm'
          · exact absurd heq (by simp)
          · exact ⟨k2, s2, hm', hd⟩)
      exact ⟨k', s', List.mem_cons_of_mem _ hm, hd, by simp [scanFields, heq]⟩
    | jbool b =>
      obtain ⟨k', s', hm, hd, heq⟩ :=
        ih (by
          obtain ⟨k2, s2, hm, hd⟩ := hex
          rcases List.mem_cons.mp hm with heq | hm'
          · exact absurd heq (by simp)
          · exact ⟨k2, s2, hm', hd⟩)
      exact ⟨k', s', List.mem_cons_of_mem _ hm, hd, by simp [scanFields, heq]⟩
    | jlist xs =>
      obtain ⟨k', s', hm, hd, heq⟩ :=
        ih (by
          obtain ⟨k2, s2, hm, hd⟩ := hex
          rcases List.mem_cons.mp hm with heq | hm'
          · exact absurd heq (by simp)
          · exact ⟨k2, s2, hm', hd⟩)
      exact ⟨k', s', List.mem_cons_of_mem _ hm, hd, by simp [scanFields, heq]⟩

/-- validate_input accepts exactly the non-empty, size-bounded requests with
an allow-listed engine and no dangerous pattern in any string field. -/
theorem validate_ok_iff (d : Data) :
    validate_input d = .ok ↔
      d ≠ [] ∧ (dataStr d).length ≤ MAX_REQUEST_SIZE
        ∧ d.any (fun p => p.1 == "engine") = true ∧ engineOk d = true
        ∧ ∀ k s, (k, JValue.jstr s) ∈ d → hasDangerousPattern s = false := by
  unfold validate_input
  rcases h0 : d.isEmpty with _ | _
  · by_cases h1 : MAX_REQUEST_SIZE < (dataStr d).length
    · simp [h0, h1]
    · rcases h2 : d.any (fun p => p.1 == "engine") with _ | _
      · simp [h0, h1, h2]
      · rcases h3 : engineOk d with _ | _
        · simp [h0, h1, h2, h3]
        · simp only [h0, Bool.false_eq_true, if_false, h1, if_false, h2, Bool.not_true,
            if_false, h3, Bool.not_true, if_false]
          rw [scanFields_ok_iff]
          constructor
          · intro hall
            refine ⟨fun hd => by simp [hd] at h0, Nat.le_of_not_lt h1, trivial, trivial, hall⟩
          · rintro ⟨-, -, -, -, hall⟩
            exact hall
  · simp [h0, List.isEmpty_iff.mp h0]

/-- execute_command_safely always hands the sanitized vector to process
creation, whatever the child then does. -/
theorem execute_spawned (runner : List String → ProcOutcome) (v : List String) :
    (execute_command_safely runner v).spawned = sanitize_command_args v := by
  unfold execute_command_safely
  rcases hr : runner (sanitize_command_args v) with r | _ | _ <;> simp [hr]
  split <;> rfl

end Secure

namespace Plain

/-- runStage spawns nothing but the exact vector it screens. -/
theorem runStage_procs (runner : List JValue → POut) (dbg : Bool) (vec : List JValue)
    (files reg : List String) (w : List JValue)
    (h : w ∈ (runStage runner dbg vec files reg).procs) : w = vec := by
  unfold runStage at h
  rcases hs : screen vec with _ | p
  · simp only [hs] at h
    split at h
    · simp at h
    · rcases hr : runner vec with out | c | _ | _ <;> simp only [hr] at h
      · split at h <;> simpa using h
      · simpa using h
      · simpa using h
      · simpa using h
  · obtain ⟨st, m⟩ := p
    simp only [hs] at h
    simp at h

set_option maxHeartbeats 1000000 in
/-- every vector frontend.py's handler passes to process creation is a
vector its builder produced, verbatim. -/
theorem procs_are_built (runner : List JValue → POut) (dbg : Bool) (cfgP pipeP : String)
    (reg : List String) (d : Data) (w : List JValue)
    (h : w ∈ (execute_fluentCore runner dbg cfgP pipeP reg d).procs) :
    ∃ cfg pf, w = buildCommand d cfg pf := by
  unfold execute_fluentCore at h
  repeat' split at h
  all_goals first
    | exact absurd h (by simp)
    | exact ⟨_, _, runStage_procs _ _ _ _ _ _ h⟩

end Plain

/-! ## Claims -/

set_option maxRecDepth 100000 in
/-- C1 counterexample: the claim says the executor passes every built command
vector element for element, with no argument altered or truncated, to
process creation.  This request passes the full secure validation, but its
built vector contains a 1001-character argument that
`execute_command_safely` truncates to 1000 characters before process
creation, so the spawned vector differs from the built one. -/
theorem C1_cex :
    Secure.validate_input d1 = .ok ∧
    (Secure.execute_command_safely (fun _ => .timedOut) (Secure.buildCommand d1 none none)).spawned
      ≠ Secure.buildCommand d1 none none := by
  constructor
  · decide
  · decide

/-- C1 (amended): the secure executor passes `sanitize_command_args v` to
process creation — the same number of arguments in the same order, each
equal to the original with shell metacharacters removed and truncated to
1000 characters — and never through a shell (the runner consumes an argv
list); frontend.py passes every vector it spawns verbatim: whatever reaches
process creation is exactly a vector `buildCommand` produced. -/
theorem C1_executor_vector (runner : List String → Secure.ProcOutcome) (v : List String) :
    (Secure.execute_command_safely runner v).spawned = v.map Secure.sanitizeArg
    ∧ (Secure.execute_command_safely runner v).spawned.length = v.length
    ∧ ∀ (pr : List JValue → Plain.POut) (dbg : Bool) (cfgP pipeP : String)
        (reg : List String) (d : Data) (w : List JValue),
        w ∈ (Plain.execute_fluentCore pr dbg cfgP pipeP reg d).procs →
        ∃ cfg pf, w = Plain.buildCommand d cfg pf := by
  refine ⟨Secure.execute_spawned runner v, ?_, ?_⟩
  · rw [Secure.execute_spawned runner v]
    simp [Secure.sanitize_command_args]
  · intro pr dbg cfgP pipeP reg d w h
    exact Plain.procs_are_built pr dbg cfgP pipeP reg d w h

/-- C1 witness: the theorem applied at a concrete vector (left unchanged by
sanitization) and a concrete frontend.py run. -/
theorem C1_executor_vector_witness :
    (Secure.execute_command_safely (fun _ => .timedOut) ["fluent", "openai"]).spawned
      = ["fluent", "openai"]
    ∧ ∃ cfg pf, [JValue.jstr "fluent", JValue.jstr "openai"] = Plain.buildCommand dEng cfg pf := by
  have h := C1_executor_vector (fun _ => .timedOut) ["fluent", "openai"]
  constructor
  · rw [h.1]; decide
  · exact h.2.2 (fun _ => .ok "") false "/a" "/b" [] dEng
      [JValue.jstr "fluent", JValue.jstr "openai"] (by decide)

/-- C7: the rate limiter prunes the identity's window to the timestamps less
than 60 seconds old, rejects without recording when at least 30 remain, and
otherwise records the current timestamp and admits: a 31st request inside
the window is rejected with the window unchanged, and once the whole window
has aged out a subsequent request is admitted. -/
theorem C7_rate_limiter (hist : List ℚ) (now later : ℚ)
    (h1 : ∀ t ∈ hist, now - t < 60)
    (h2 : Secure.MAX_REQUESTS_PER_MINUTE ≤ hist.length)
    (h3 : ∀ t ∈ hist, 60 ≤ later - t) :
    Secure.rate_limit_check hist now = (false, hist)
    ∧ Secure.rate_limit_check hist later = (true, [later]) := by
  constructor
  · unfold Secure.rate_limit_check
    have hf : hist.filter (fun t => decide (now - t < 60)) = hist :=
      List.filter_eq_self.mpr (fun t ht => by simpa using h1 t ht)
    rw [hf]
    simp [h2]
  · unfold Secure.rate_limit_check
    have hf : hist.filter (fun t => decide (later - t < 60)) = [] := by
      rw [List.filter_eq_nil_iff]
      intro t ht
      simpa using not_lt.mpr (h3 t ht)
    rw [hf]
    simp [Secure.MAX_REQUESTS_PER_MINUTE]

/-- C7 witness: thirty requests at time 0 fill the window; a request at time
30 is rejected without being recorded; a request at time 61 is admitted. -/
theorem C7_rate_limiter_witness :
    Secure.rate_limit_check (List.replicate 30 (0:ℚ)) 30 = (false, List.replicate 30 (0:ℚ))
    ∧ Secure.rate_limit_check (List.replicate 30 (0:ℚ)) 61 = (true, [61]) := by
  have h := C7_rate_limiter (List.replicate 30 (0:ℚ)) 30 61
    (by intro t ht; simp at ht; rw [ht]; norm_num)
    (by simp [Secure.MAX_REQUESTS_PER_MINUTE])
    (by intro t ht; simp at ht; rw [ht]; norm_num)
  exact h


/-- validate_input reduces to the field scan once the emptiness, size and
engine checks pass. -/
theorem validate_eq_scan (d : Data)
    (hne : d.isEmpty = false) (hsize : (dataStr d).length ≤ Secure.MAX_REQUEST_SIZE)
    (hkey : d.any (fun p => p.1 == "engine") = true) (heng : Secure.engineOk d = true) :
    Secure.validate_input d = Secure.scanFields d := by
  unfold Secure.validate_input
  simp [hne, Nat.not_lt.mpr hsize, hkey, heng]

/-- C2 counterexample: the claim says any string field containing a
character of the denylist (which includes the double quote) is rejected by
validation and never reaches command construction.  This request has a
double quote in its `input` field, yet `validate_input` accepts it and the
offending value appears verbatim in the built command vector. -/
theorem C2_cex :
    Secure.validate_input d2 = .ok
    ∧ "say \"hi\"" ∈ Secure.buildCommand d2 none none
    ∧ '"' ∈ "say \"hi\"".data ∧ '"' ∈ Plain.dangerousChars := by
  refine ⟨by decide, by decide, by decide, by decide⟩

/-- C2 (amended): frontend_secure.py's validator rejects a request whose
string field matches one of its four dangerous patterns (the characters
`; & | $ ( )` plus backquote, the substring `../`, `<script`, `exec(`),
with an error naming an offending field; the characters `< > " '`,
backslash and newlines, a bare `..` and a leading `/` are not rejected by
it.  frontend.py screens the full denylist, but only argument-wise on the
built vector, with an error that names no field. -/
theorem C2_denylist_rejection (d : Data) (k s : String)
    (hmem : (k, JValue.jstr s) ∈ d)
    (hdanger : Secure.hasDangerousPattern s = true)
    (hne : d.isEmpty = false) (hsize : (dataStr d).length ≤ Secure.MAX_REQUEST_SIZE)
    (hkey : d.any (fun p => p.1 == "engine") = true) (heng : Secure.engineOk d = true) :
    (∃ k' s', (k', JValue.jstr s') ∈ d ∧ Secure.hasDangerousPattern s' = true
      ∧ Secure.validate_input d = .err ("Invalid characters in " ++ k'))
    ∧ ∀ (t : String) (c : Char), c ∈ Plain.dangerousChars → c ∈ t.data →
        Plain.screenArg (JValue.jstr t) = some (400, "Invalid characters in command arguments") := by
  constructor
  · obtain ⟨k', s', hm, hd, heq⟩ := Secure.scanFields_err_of d ⟨k, s, hmem, hdanger⟩
    exact ⟨k', s', hm, hd, by rw [validate_eq_scan d hne hsize hkey heng]; exact heq⟩
  · intro t c hc hct
    unfold Plain.screenArg
    split
    · rfl
    · rename_i hno
      exact absurd (List.any_eq_true.mpr ⟨c, hct, List.elem_eq_true_of_mem hc⟩) hno

/-- C2 witness: the theorem applied to the request with a semicolon in its
`request` field and to the argument `a;b`. -/
theorem C2_denylist_rejection_witness :
    (∃ k' s', (k', JValue.jstr s') ∈ d3 ∧ Secure.hasDangerousPattern s' = true
      ∧ Secure.validate_input d3 = .err ("Invalid characters in " ++ k'))
    ∧ Plain.screenArg (JValue.jstr "a;b") = some (400, "Invalid characters in command arguments") := by
  have h := C2_denylist_rejection d3 "request" "a;b" (by decide) (by decide)
    (by decide) (by decide) (by decide) (by decide)
  exact ⟨h.1, h.2 "a;b" ';' (by decide) (by decide)⟩

/-- C9: the dangerous-pattern scan is applied only to string-valued fields:
a request whose non-string fields are arbitrary is accepted as long as its
string fields are clean (and the other checks pass), and a list-valued
`input` field containing a semicolon is stringified into the built command
vector. -/
theorem C9_nonstring_fields_skipped (d : Data)
    (hne : d ≠ []) (hsize : (dataStr d).length ≤ Secure.MAX_REQUEST_SIZE)
    (hkey : d.any (fun p => p.1 == "engine") = true) (heng : Secure.engineOk d = true)
    (hstr : ∀ k s, (k, JValue.jstr s) ∈ d → Secure.hasDangerousPattern s = false) :
    Secure.validate_input d = .ok
    ∧ (Secure.validate_input d9 = .ok
       ∧ (JValue.jlist ["x; rm"]).pyStr ∈ Secure.buildCommand d9 none none
       ∧ ';' ∈ (JValue.jlist ["x; rm"]).pyStr.data) := by
  constructor
  · exact (Secure.validate_ok_iff d).mpr ⟨hne, hsize, hkey, heng, hstr⟩
  · refine ⟨by decide, by decide, by decide⟩

/-- C9 witness: the theorem applied to the request whose `input` field is a
list containing shell metacharacters. -/
theorem C9_nonstring_fields_skipped_witness :
    Secure.validate_input d9 = .ok := by
  exact (C9_nonstring_fields_skipped d9 (by decide) (by decide) (by decide) (by decide)
    ((Secure.scanFields_ok_iff d9).mp (by decide))).1


/-- C3 counterexample: the claim says every request failing a validation
check — including the character screen — is rejected with zero filesystem
side effects.  In frontend.py this request (valid engine, config content,
and a semicolon in the request field) is rejected by the character screen
with a 400, but only after the config temp file was created: the created
file list is non-empty. -/
theorem C3_cex :
    (Plain.execute_fluentCore (fun _ => .ok "") false "/tmp/fluent_temp_c.json"
        "/tmp/fluent_temp_p.yaml" [] d3).resp
      = ⟨400, .err "Invalid characters in command arguments"⟩
    ∧ (Plain.execute_fluentCore (fun _ => .ok "") false "/tmp/fluent_temp_c.json"
        "/tmp/fluent_temp_p.yaml" [] d3).files = ["/tmp/fluent_temp_c.json"]
    ∧ (Plain.execute_fluentCore (fun _ => .ok "") false "/tmp/fluent_temp_c.json"
        "/tmp/fluent_temp_p.yaml" [] d3).procs = [] := by
  refine ⟨by decide, by decide, by decide⟩

/-- C3 (amended): in frontend_secure.py every request `validate_input`
rejects gets the 400 validation error with no file created and no process
started; in frontend.py only the payload/engine checks run before staging,
and a request they reject has no side effects — while a request rejected by
the later character/traversal screen may already have staged files (the
counterexample), though still no process. -/
theorem C3_reject_before_side_effects :
    (∀ (runner : List String → Secure.ProcOutcome) (cfgP pipeP : String) (reg : List String)
        (d : Data) (e : String), Secure.validate_input d = .err e →
        Secure.execute_fluent runner cfgP pipeP reg d = ⟨⟨400, .err e⟩, [], [], reg⟩)
    ∧ (∀ (runner : List JValue → Plain.POut) (dbg : Bool) (cfgP pipeP : String)
        (reg : List String) (d : Data),
        d.isEmpty = true ∨ Plain.engineMissing d = true ∨ Plain.engineAllowed d = false →
        (Plain.execute_fluentCore runner dbg cfgP pipeP reg d).resp.status = 400
        ∧ (Plain.execute_fluentCore runner dbg cfgP pipeP reg d).files = []
        ∧ (Plain.execute_fluentCore runner dbg cfgP pipeP reg d).procs = []) := by
  constructor
  · intro runner cfgP pipeP reg d e h
    unfold Secure.execute_fluent
    simp [h]
  · intro runner dbg cfgP pipeP reg d hdisj
    unfold Plain.execute_fluentCore
    rcases h0 : d.isEmpty with _ | _
    · rcases h1 : Plain.engineMissing d with _ | _
      · rcases h2 : Plain.engineAllowed d with _ | _
        · simp [h0, h1, h2]
        · exfalso
          rcases hdisj with h | h | h
          · simp [h] at h0
          · simp [h] at h1
          · simp [h] at h2
      · simp [h0, h1]
    · simp [h0]

/-- C3 witness: the theorem applied to requests with a non-allow-listed
engine, in both handlers. -/
theorem C3_reject_before_side_effects_witness :
    Secure.execute_fluent (fun _ => .timedOut) "/a" "/b" [] [("engine", JValue.jstr "bad")]
      = ⟨⟨400, .err Secure.engineMsg⟩, [], [], []⟩
    ∧ (Plain.execute_fluentCore (fun _ => .ok "") false "/a" "/b" []
        [("engine", JValue.jstr "bad"), ("config", JValue.jstr "x")]).files = [] := by
  constructor
  · exact C3_reject_before_side_effects.1 (fun _ => .timedOut) "/a" "/b" []
      [("engine", JValue.jstr "bad")] Secure.engineMsg (by decide)
  · exact (C3_reject_before_side_effects.2 (fun _ => .ok "") false "/a" "/b" []
      [("engine", JValue.jstr "bad"), ("config", JValue.jstr "x")]
      (Or.inr (Or.inr (by decide)))).2.1


/-- timeout and generic-failure diagnostics are distinct strings whatever
the redacted stderr is. -/
theorem timeoutMsg_ne_failMsg (s : String) :
    "Command execution timed out" ≠ "Command execution failed: " ++ s := by
  intro h
  obtain ⟨sd⟩ := s
  have h2 := congrArg String.data h
  simp at h2

/-- C4 counterexample: the claim says execution failure and internal error
receive distinct status codes.  A run whose child exits non-zero (execution
failure) and a run whose subprocess call raises (internal error) both
receive status 500 from the secure endpoint, distinguished only by the
message. -/
theorem C4_cex :
    (Secure.endpoint (fun _ => .completed ⟨"", "boom", 1⟩) "/a" "/b" [] [] 0 dEng).1.resp
      = ⟨500, .err "Command execution failed: boom"⟩
    ∧ (Secure.endpoint (fun _ => .raised) "/a" "/b" [] [] 0 dEng).1.resp
      = ⟨500, .err "Internal server error"⟩ := by
  refine ⟨by decide, by decide⟩

/-- C4 (amended): the secure endpoint maps rate limiting to 429 and
validation failure to 400, distinct from each other and from 500; execution
failure, timeout and internal error all map to 500 and are distinguished
only by their error messages, the timeout message being distinct from every
generic-failure message. -/
theorem C4_status_mapping :
    (∀ (runner : List String → Secure.ProcOutcome) (cfgP pipeP : String) (reg : List String)
        (hist : List ℚ) (now : ℚ) (d : Data),
        Secure.MAX_REQUESTS_PER_MINUTE ≤ (hist.filter (fun t => decide (now - t < 60))).length →
        (Secure.endpoint runner cfgP pipeP reg hist now d).1.resp
          = ⟨429, .err "Rate limit exceeded. Try again later."⟩)
    ∧ (∀ (runner : List String → Secure.ProcOutcome) (cfgP pipeP : String) (reg : List String)
        (hist : List ℚ) (now : ℚ) (d : Data) (e : String),
        (hist.filter (fun t => decide (now - t < 60))).length < Secure.MAX_REQUESTS_PER_MINUTE →
        Secure.validate_input d = .err e →
        (Secure.endpoint runner cfgP pipeP reg hist now d).1.resp = ⟨400, .err e⟩)
    ∧ (∀ (runner : List String → Secure.ProcOutcome) (args : List String) (r : Secure.ProcResult),
        runner (Secure.sanitize_command_args args) = .completed r → r.returncode ≠ 0 →
        (Secure.execute_command_safely runner args).error
          = some ("Command execution failed: " ++ pyTake (Secure.redactError r.stderr) 500))
    ∧ (∀ (runner : List String → Secure.ProcOutcome) (args : List String),
        runner (Secure.sanitize_command_args args) = .timedOut →
        (Secure.execute_command_safely runner args).error = some "Command execution timed out")
    ∧ (∀ (runner : List String → Secure.ProcOutcome) (args : List String),
        runner (Secure.sanitize_command_args args) = .raised →
        (Secure.execute_command_safely runner args).error = some "Internal server error")
    ∧ (∀ s : String, "Command execution timed out" ≠ "Command execution failed: " ++ s)
    ∧ ((400 : Nat) ≠ 429 ∧ (400 : Nat) ≠ 500 ∧ (429 : Nat) ≠ 500) := by
  refine ⟨?_, ?_, ?_, ?_, ?_, timeoutMsg_ne_failMsg, by decide, by decide, by decide⟩
  · intro runner cfgP pipeP reg hist now d h
    unfold Secure.endpoint Secure.rate_limit_check
    simp [h]
  · intro runner cfgP pipeP reg hist now d e hlt he
    unfold Secure.endpoint Secure.rate_limit_check
    rw [if_neg (by omega)]
    unfold Secure.execute_fluent
    simp [he]
  · intro runner args r hr hc
    unfold Secure.execute_command_safely
    rw [hr]
    simp [hc]
  · intro runner args hr
    unfold Secure.execute_command_safely
    rw [hr]
  · intro runner args hr
    unfold Secure.execute_command_safely
    rw [hr]

/-- C4 witness: the theorem applied to concrete rate-limited, invalid,
failing, timed-out and raising runs. -/
theorem C4_status_mapping_witness :
    (Secure.endpoint (fun _ => .timedOut) "/a" "/b" [] (List.replicate 30 (0:ℚ)) 1 dEng).1.resp
      = ⟨429, .err "Rate limit exceeded. Try again later."⟩
    ∧ (Secure.endpoint (fun _ => .timedOut) "/a" "/b" [] [] 0
        [("engine", JValue.jstr "bad")]).1.resp = ⟨400, .err Secure.engineMsg⟩
    ∧ (Secure.execute_command_safely (fun _ => .completed ⟨"", "boom", 1⟩) ["x"]).error
      = some "Command execution failed: boom"
    ∧ (Secure.execute_command_safely (fun _ => .timedOut) ["x"]).error
      = some "Command execution timed out"
    ∧ (Secure.execute_command_safely (fun _ => .raised) ["x"]).error
      = some "Internal server error" := by
  have h := C4_status_mapping
  refine ⟨?_, ?_, ?_, ?_, ?_⟩
  · refine h.1 (fun _ => .timedOut) "/a" "/b" [] (List.replicate 30 (0:ℚ)) 1 dEng ?_
    have hf : (List.replicate 30 (0:ℚ)).filter (fun t => decide ((1:ℚ) - t < 60))
        = List.replicate 30 0 :=
      List.filter_eq_self.mpr (fun t ht => by simp at ht; rw [ht]; norm_num)
    rw [hf]
    simp [Secure.MAX_REQUESTS_PER_MINUTE]
  · exact h.2.1 (fun _ => .timedOut) "/a" "/b" [] [] 0 [("engine", JValue.jstr "bad")]
      Secure.engineMsg (by decide) (by decide)
  · have := h.2.2.1 (fun _ => .completed ⟨"", "boom", 1⟩) ["x"] ⟨"", "boom", 1⟩ rfl (by decide)
    rw [this]; decide
  · exact h.2.2.2.1 (fun _ => .timedOut) ["x"] rfl
  · exact h.2.2.2.2.1 (fun _ => .raised) ["x"] rfl


/-- runStage's response, files and spawned vectors do not depend on the
debug flag, which only controls logging. -/
theorem runStage_dbg_eq (runner : List JValue → Plain.POut) (vec : List JValue)
    (files reg : List String) (d1 d2 : Bool) :
    ((Plain.runStage runner d1 vec files reg).resp,
     (Plain.runStage runner d1 vec files reg).files,
     (Plain.runStage runner d1 vec files reg).procs)
    = ((Plain.runStage runner d2 vec files reg).resp,
       (Plain.runStage runner d2 vec files reg).files,
       (Plain.runStage runner d2 vec files reg).procs) := by
  unfold Plain.runStage
  (repeat' split) <;> rfl

theorem core_dbg_eq (runner : List JValue → Plain.POut) (cfgP pipeP : String)
    (reg : List String) (d : Data) (d1 d2 : Bool) :
    ((Plain.execute_fluentCore runner d1 cfgP pipeP reg d).resp,
     (Plain.execute_fluentCore runner d1 cfgP pipeP reg d).files,
     (Plain.execute_fluentCore runner d1 cfgP pipeP reg d).procs)
    = ((Plain.execute_fluentCore runner d2 cfgP pipeP reg d).resp,
       (Plain.execute_fluentCore runner d2 cfgP pipeP reg d).files,
       (Plain.execute_fluentCore runner d2 cfgP pipeP reg d).procs) := by
  unfold Plain.execute_fluentCore
  rcases h0 : d.isEmpty with _ | _
  · rcases h1 : Plain.engineMissing d with _ | _
    · rcases h2 : Plain.engineAllowed d with _ | _
      · simp [h0, h1, h2]
      · simp only [h0, h1, h2, Bool.not_true, Bool.false_eq_true, if_false, if_true]
        rcases h3 : Plain.create_temp_file reg (pyGet d "config") ".json" cfgP with ⟨res, regA⟩
        try simp only [h3]
        cases res with
        | valueError m => simp
        | typeError => simp
        | noFile =>
          rcases h4 : Plain.create_temp_file regA (pyGet d "pipelineFile") ".yaml" pipeP
            with ⟨pres, regB⟩
          try simp only [h4]
          cases pres with
          | valueError m => simp
          | typeError => simp
          | noFile =>
            by_cases ho : Secure.overrideRaises d <;>
              simp only [ho, eq_self_iff_true, Bool.false_eq_true, if_true, if_false] <;>
              first
                | exact runStage_dbg_eq runner _ _ _ d1 d2
                | simp
          | created q =>
            by_cases ho : Secure.overrideRaises d <;>
              simp only [ho, eq_self_iff_true, Bool.false_eq_true, if_true, if_false] <;>
              first
                | exact runStage_dbg_eq runner _ _ _ d1 d2
                | simp
        | created q =>
          rcases h4 : Plain.create_temp_file regA (pyGet d "pipelineFile") ".yaml" pipeP
            with ⟨pres, regB⟩
          try simp only [h4]
          cases pres with
          | valueError m => simp
          | typeError => simp
          | noFile =>
            by_cases ho : Secure.overrideRaises d <;>
              simp only [ho, eq_self_iff_true, Bool.false_eq_true, if_true, if_false] <;>
              first
                | exact runStage_dbg_eq runner _ _ _ d1 d2
                | simp
          | created q2 =>
            by_cases ho : Secure.overrideRaises d <;>
              simp only [ho, eq_self_iff_true, Bool.false_eq_true, if_true, if_false] <;>
              first
                | exact runStage_dbg_eq runner _ _ _ d1 d2
                | simp
    · simp [h0, h1]
  · simp [h0]

/-- the staging outcome (as opposed to the updated registry) does not
depend on the incoming registry contents. -/
theorem create_fst_reg (c : Option JValue) (e p : String) (reg1 reg2 : List String) :
    (Secure.create_temp_file reg1 c e p).1 = (Secure.create_temp_file reg2 c e p).1 := by
  unfold Secure.create_temp_file
  rcases c with _ | v
  · rfl
  · by_cases ht : v.truthy <;> cases v <;> simp [ht] <;> (repeat' split) <;> rfl

/-- the execution stage's response, files and spawned vectors do not depend
on the registry contents. -/
theorem execStage_reg_eq (runner : List String → Secure.ProcOutcome) (vec : List String)
    (files reg1 reg2 : List String) :
    ((Secure.execStage runner vec files reg1).resp,
     (Secure.execStage runner vec files reg1).files,
     (Secure.execStage runner vec files reg1).procs)
    = ((Secure.execStage runner vec files reg2).resp,
       (Secure.execStage runner vec files reg2).files,
       (Secure.execStage runner vec files reg2).procs) := by
  unfold Secure.execStage
  rcases hx : (Secure.execute_command_safely runner vec).error with _ | e <;> simp only [hx]

set_option maxHeartbeats 1600000 in
/-- the secure handler's response, files and spawned vectors do not depend
on the incoming `_temp_files` registry contents. -/
theorem secure_handler_reg (runner : List String → Secure.ProcOutcome) (cfgP pipeP : String)
    (d : Data) (reg1 reg2 : List String) :
    ((Secure.execute_fluent runner cfgP pipeP reg1 d).resp,
     (Secure.execute_fluent runner cfgP pipeP reg1 d).files,
     (Secure.execute_fluent runner cfgP pipeP reg1 d).procs)
    = ((Secure.execute_fluent runner cfgP pipeP reg2 d).resp,
       (Secure.execute_fluent runner cfgP pipeP reg2 d).files,
       (Secure.execute_fluent runner cfgP pipeP reg2 d).procs) := by
  unfold Secure.execute_fluent
  rcases hv : Secure.validate_input d with _ | e
  · rcases h1 : Secure.create_temp_file reg1 (pyGet d "config") ".json" cfgP with ⟨res1, regA⟩
    rcases h2 : Secure.create_temp_file reg2 (pyGet d "config") ".json" cfgP with ⟨res2, regB⟩
    have hres : res1 = res2 := by
      have := create_fst_reg (pyGet d "config") ".json" cfgP reg1 reg2
      rw [h1, h2] at this
      exact this
    subst hres
    simp only [h1, h2]
    cases res1 with
    | valueError m => rfl
    | typeError => rfl
    | noFile =>
      rcases h3 : Secure.create_temp_file regA (pyGet d "pipelineFile") ".yaml" pipeP
        with ⟨pres1, regC⟩
      rcases h4 : Secure.create_temp_file regB (pyGet d "pipelineFile") ".yaml" pipeP
        with ⟨pres2, regD⟩
      have hpres : pres1 = pres2 := by
        have := create_fst_reg (pyGet d "pipelineFile") ".yaml" pipeP regA regB
        rw [h3, h4] at this
        exact this
      subst hpres
      simp only [h3, h4]
      cases pres1 with
      | valueError m => rfl
      | typeError => rfl
      | noFile =>
        by_cases ho : Secure.overrideRaises d <;>
          simp only [ho, eq_self_iff_true, Bool.false_eq_true, if_true, if_false] <;>
          first
            | rfl
            | exact execStage_reg_eq runner _ _ regC regD
      | created q =>
        by_cases ho : Secure.overrideRaises d <;>
          simp only [ho, eq_self_iff_true, Bool.false_eq_true, if_true, if_false] <;>
          first
            | rfl
            | exact execStage_reg_eq runner _ _ regC regD
    | created q =>
      rcases h3 : Secure.create_temp_file regA (pyGet d "pipelineFile") ".yaml" pipeP
        with ⟨pres1, regC⟩
      rcases h4 : Secure.create_temp_file regB (pyGet d "pipelineFile") ".yaml" pipeP
        with ⟨pres2, regD⟩
      have hpres : pres1 = pres2 := by
        have := create_fst_reg (pyGet d "pipelineFile") ".yaml" pipeP regA regB
        rw [h3, h4] at this
        exact this
      subst hpres
      simp only [h3, h4]
      cases pres1 with
      | valueError m => rfl
      | typeError => rfl
      | noFile =>
        by_cases ho : Secure.overrideRaises d <;>
          simp only [ho, eq_self_iff_true, Bool.false_eq_true, if_true, if_false] <;>
          first
            | rfl
            | exact execStage_reg_eq runner _ _ regC regD
      | created q2 =>
        by_cases ho : Secure.overrideRaises d <;>
          simp only [ho, eq_self_iff_true, Bool.false_eq_true, if_true, if_false] <;>
          first
            | rfl
            | exact execStage_reg_eq runner _ _ regC regD
  · simp [hv]

/-- C6: command construction is a function only of the request fields and
the staged paths.  frontend.py's handler consults the environment only for
its debug log line: two runs under different environments give identical
responses, files and spawned vectors.  The secure endpoint's spawned
vectors are likewise independent of the two pieces of mutable shared state,
the rate-limit window and the temp-file registry, whenever the request is
admitted. -/
theorem C6_builder_deterministic (runner : List JValue → Plain.POut)
    (env1 env2 : String → Option String) (cfgP pipeP : String) (reg : List String) (d : Data) :
    ((Plain.execute_fluent runner env1 cfgP pipeP reg d).resp
       = (Plain.execute_fluent runner env2 cfgP pipeP reg d).resp
     ∧ (Plain.execute_fluent runner env1 cfgP pipeP reg d).files
       = (Plain.execute_fluent runner env2 cfgP pipeP reg d).files
     ∧ (Plain.execute_fluent runner env1 cfgP pipeP reg d).procs
       = (Plain.execute_fluent runner env2 cfgP pipeP reg d).procs)
    ∧ ∀ (srunner : List String → Secure.ProcOutcome) (reg1 reg2 : List String)
        (hist1 hist2 : List ℚ) (now1 now2 : ℚ) (sd : Data),
        (hist1.filter (fun t => decide (now1 - t < 60))).length < Secure.MAX_REQUESTS_PER_MINUTE →
        (hist2.filter (fun t => decide (now2 - t < 60))).length < Secure.MAX_REQUESTS_PER_MINUTE →
        (Secure.endpoint srunner cfgP pipeP reg1 hist1 now1 sd).1.procs
          = (Secure.endpoint srunner cfgP pipeP reg2 hist2 now2 sd).1.procs := by
  constructor
  · have h := core_dbg_eq runner cfgP pipeP reg d (Plain.dbgOf env1) (Plain.dbgOf env2)
    exact ⟨congrArg (fun t => t.1) h, congrArg (fun t => t.2.1) h, congrArg (fun t => t.2.2) h⟩
  · intro srunner reg1 reg2 hist1 hist2 now1 now2 sd h1 h2
    unfold Secure.endpoint Secure.rate_limit_check
    rw [if_neg (by omega), if_neg (by omega)]
    exact congrArg (fun t => t.2.2) (secure_handler_reg srunner cfgP pipeP sd reg1 reg2)

/-- C6 witness: the theorem applied with two different environments and two
different registries and windows. -/
theorem C6_builder_deterministic_witness :
    (Plain.execute_fluent (fun _ => .ok "out") (fun _ => some "true") "/a" "/b" [] dEng).procs
      = (Plain.execute_fluent (fun _ => .ok "out") (fun _ => none) "/a" "/b" [] dEng).procs
    ∧ (Secure.endpoint (fun _ => .timedOut) "/a" "/b" [] [] 0 dEng).1.procs
      = (Secure.endpoint (fun _ => .timedOut) "/a" "/b" ["/old"] [] 5 dEng).1.procs := by
  have h := C6_builder_deterministic (fun _ => .ok "out") (fun _ => some "true") (fun _ => none)
    "/a" "/b" [] dEng
  exact ⟨h.1.2.2, h.2 (fun _ => .timedOut) [] ["/old"] [] [] 0 5 dEng (by decide) (by decide)⟩


theorem mem_of_pyGet (d : Data) (k : String) (v : JValue) (h : pyGet d k = some v) :
    (k, v) ∈ d := by
  unfold pyGet at h
  rcases hf : d.find? (fun p => p.1 == k) with _ | p
  · rw [hf] at h; simp at h
  · rw [hf] at h
    simp at h
    have hm := List.mem_of_find?_eq_some hf
    have hk := List.find?_some hf
    simp at hk
    obtain ⟨k1, v1⟩ := p
    simp at hk h
    rw [← hk, ← h]
    exact hm

theorem any_key_of_pyGet (d : Data) (k : String) (v : JValue) (h : pyGet d k = some v) :
    d.any (fun p => p.1 == k) = true := by
  have hm := mem_of_pyGet d k v h
  exact List.any_eq_true.mpr ⟨(k, v), hm, by simp⟩

theorem engineMissing_false_of_pyGet (d : Data) (v : JValue)
    (h : pyGet d "engine" = some v) : Plain.engineMissing d = false := by
  unfold Plain.engineMissing
  simp [any_key_of_pyGet d "engine" v h]

theorem overrideRaises_false_of_str (d : Data) (hstr : ∀ p ∈ d, p.2.isStr = true) :
    Secure.overrideRaises d = false := by
  unfold Secure.overrideRaises
  rcases hg : pyGet d "override" with _ | v
  · rfl
  · have := hstr _ (mem_of_pyGet d "override" v hg)
    simp at this ⊢
    intro
    cases v <;> simp_all [JValue.isStr]

theorem optFieldJ_isStr (d : Data) (k : String) (f : JValue → List JValue)
    (hf : ∀ v, (k, v) ∈ d → ∀ a ∈ f v, a.isStr = true) :
    ∀ a ∈ Plain.optFieldJ d k f, a.isStr = true := by
  intro a ha
  unfold Plain.optFieldJ at ha
  rcases hg : pyGet d k with _ | v
  · rw [hg] at ha; simp at ha
  · rw [hg] at ha
    rcases ht : v.truthy with _ | _
    · simp [ht] at ha
    · simp only [ht, if_true] at ha
      exact hf v (mem_of_pyGet d k v hg) a ha

theorem buildCommand_all_jstr (d : Data) (cfg pf : Option String)
    (hstr : ∀ p ∈ d, p.2.isStr = true) :
    ∀ a ∈ Plain.buildCommand d cfg pf, a.isStr = true := by
  intro a ha
  have hval : ∀ (k : String) (v : JValue), (k, v) ∈ d → v.isStr = true :=
    fun k v hm => hstr (k, v) hm
  unfold Plain.buildCommand at ha
  simp only [List.mem_append] at ha
  rcases ha with ((((((((((((((ha | ha) | ha) | ha) | ha) | ha) | ha) | ha) | ha) | ha) | ha) | ha) | ha) | ha) | ha)
  · simp only [List.mem_cons, List.not_mem_nil, or_false] at ha
    rcases ha with ha | ha
    · subst ha; rfl
    · subst ha
      unfold Plain.engineValue
      rcases hg : pyGet d "engine" with _ | v
      · rfl
      · exact hval "engine" v (mem_of_pyGet d "engine" v hg)
  · exact optFieldJ_isStr d "request" (fun v => [v]) (fun v hm a2 ha2 => by
      simp at ha2; rw [ha2]; exact hval "request" v hm) a ha
  · rcases cfg with _ | p
    · simp at ha
    · simp at ha
      rcases ha with ha | ha
      · subst ha; rfl
      · subst ha; rfl
  · rcases hg : pyGet d "override" with _ | v
    · rw [hg] at ha; simp at ha
    · rw [hg] at ha
      cases v with
      | jstr o =>
        simp only [List.mem_flatMap, List.mem_filter] at ha
        obtain ⟨t, _, ht⟩ := ha
        simp at ht
        rcases ht with ht | ht
        · subst ht; rfl
        · subst ht; rfl
      | jnum n => simp at ha
      | jbool b => simp at ha
      | jlist xs => simp at ha
  · exact optFieldJ_isStr d "additionalContextFile" (fun v => [.jstr "-a", v])
      (fun v hm a2 ha2 => by
        simp at ha2
        rcases ha2 with ha2 | ha2
        · subst ha2; rfl
        · rw [ha2]; exact hval "additionalContextFile" v hm) a ha
  · exact optFieldJ_isStr d "upsert" (fun _ => [.jstr "--upsert"])
      (fun v hm a2 ha2 => by simp at ha2; subst ha2; rfl) a ha
  · exact optFieldJ_isStr d "input" (fun v => [.jstr "-i", v])
      (fun v hm a2 ha2 => by
        simp at ha2
        rcases ha2 with ha2 | ha2
        · subst ha2; rfl
        · rw [ha2]; exact hval "input" v hm) a ha
  · exact optFieldJ_isStr d "metadata" (fun v => [.jstr "-t", v])
      (fun v hm a2 ha2 => by
        simp at ha2
        rcases ha2 with ha2 | ha2
        · subst ha2; rfl
        · rw [ha2]; exact hval "metadata" v hm) a ha
  · exact optFieldJ_isStr d "uploadImageFile" (fun v => [.jstr "-l", v])
      (fun v hm a2 ha2 => by
        simp at ha2
        rcases ha2 with ha2 | ha2
        · subst ha2; rfl
        · rw [ha2]; exact hval "uploadImageFile" v hm) a ha
  · exact optFieldJ_isStr d "downloadMedia" (fun v => [.jstr "-d", v])
      (fun v hm a2 ha2 => by
        simp at ha2
        rcases ha2 with ha2 | ha2
        · subst ha2; rfl
        · rw [ha2]; exact hval "downloadMedia" v hm) a ha
  · exact optFieldJ_isStr d "parseCode" (fun _ => [.jstr "-p"])
      (fun v hm a2 ha2 => by simp at ha2; subst ha2; rfl) a ha
  · exact optFieldJ_isStr d "executeOutput" (fun _ => [.jstr "-x"])
      (fun v hm a2 ha2 => by simp at ha2; subst ha2; rfl) a ha
  · exact optFieldJ_isStr d "markdown" (fun _ => [.jstr "-m"])
      (fun v hm a2 ha2 => by simp at ha2; subst ha2; rfl) a ha
  · exact optFieldJ_isStr d "generateCypher" (fun v => [.jstr "--generate-cypher", v])
      (fun v hm a2 ha2 => by
        simp at ha2
        rcases ha2 with ha2 | ha2
        · subst ha2; rfl
        · rw [ha2]; exact hval "generateCypher" v hm) a ha
  · rcases pf with _ | p
    · simp at ha
    · simp only [List.mem_append, List.mem_cons, List.not_mem_nil, or_false] at ha
      rcases ha with ((((ha | ha | ha) | ha) | ha) | ha) | ha
      · subst ha; rfl
      · subst ha; rfl
      · subst ha; rfl
      · exact optFieldJ_isStr d "pipelineInput" (fun v => [.jstr "--input", v])
          (fun v hm a2 ha2 => by
            simp at ha2
            rcases ha2 with ha2 | ha2
            · subst ha2; rfl
            · rw [ha2]; exact hval "pipelineInput" v hm) a ha
      · exact optFieldJ_isStr d "jsonOutput" (fun _ => [.jstr "--json-output"])
          (fun v hm a2 ha2 => by simp at ha2; subst ha2; rfl) a ha
      · exact optFieldJ_isStr d "runId" (fun v => [.jstr "--run-id", v])
          (fun v hm a2 ha2 => by
            simp at ha2
            rcases ha2 with ha2 | ha2
            · subst ha2; rfl
            · rw [ha2]; exact hval "runId" v hm) a ha
      · exact optFieldJ_isStr d "forceFresh" (fun _ => [.jstr "--force-fresh"])
          (fun v hm a2 ha2 => by simp at ha2; subst ha2; rfl) a ha


theorem engineMissing_false_of_allowed (d : Data) (h : Plain.engineAllowed d = true) :
    Plain.engineMissing d = false := by
  unfold Plain.engineAllowed at h
  rcases List.any_eq_true.mp h with ⟨e, he, heq⟩
  rcases hg : pyGet d "engine" with _ | v
  · unfold Plain.engineValue at heq
    rw [hg] at heq
    simp at heq
    rw [← heq] at he
    exact absurd he (by decide)
  · exact engineMissing_false_of_pyGet d v hg

theorem screenArg_jstr_cases (s : String) (r : Nat × String)
    (h : Plain.screenArg (.jstr s) = some r) :
    r = (400, "Invalid characters in command arguments") ∨
      r = (400, "Invalid path in arguments") := by
  unfold Plain.screenArg at h
  repeat' split at h
  all_goals first
    | exact Or.inl (Option.some.inj h).symm
    | exact Or.inr (Option.some.inj h).symm
    | simp at h

theorem screen_eq_none_iff (v : List JValue) :
    Plain.screen v = none ↔ ∀ a ∈ v, Plain.screenArg a = none := by
  induction v with
  | nil => simp [Plain.screen]
  | cons b rest ih =>
    unfold Plain.screen
    rcases hs : Plain.screenArg b with _ | r
    · simp only [List.mem_cons]
      constructor
      · intro h a ha
        rcases ha with ha | ha
        · rw [ha]; exact hs
        · exact (ih.mp h) a ha
      · intro h
        exact ih.mpr (fun a ha => h a (Or.inr ha))
    · simp only [List.mem_cons]
      constructor
      · intro h; simp at h
      · intro h
        have := h b (Or.inl rfl)
        rw [this] at hs
        simp at hs

theorem screen_eq_some_mem (v : List JValue) (r : Nat × String)
    (h : Plain.screen v = some r) : ∃ a ∈ v, Plain.screenArg a = some r := by
  induction v with
  | nil => simp [Plain.screen] at h
  | cons b rest ih =>
    unfold Plain.screen at h
    rcases hs : Plain.screenArg b with _ | r2
    · rw [hs] at h
      obtain ⟨a, ha, h2⟩ := ih h
      exact ⟨a, List.mem_cons_of_mem b ha, h2⟩
    · rw [hs] at h
      simp at h
      exact ⟨b, List.mem_cons_self b rest, by rw [hs, h]⟩

theorem screenArg_jstr_ne_none (s : String)
    (h : startsWithL "/".data s.data = true) : Plain.screenArg (.jstr s) ≠ none := by
  unfold Plain.screenArg
  split
  · simp
  · split
    · simp
    · simp [JValue.pyStr, h]

theorem runStage_screened (runner : List JValue → Plain.POut) (dbg : Bool)
    (vec : List JValue) (files reg : List String) (st : Nat) (m : String)
    (h : Plain.screen vec = some (st, m)) :
    Plain.runStage runner dbg vec files reg = ⟨⟨st, .err m⟩, files, [], [], reg⟩ := by
  unfold Plain.runStage
  rw [h]

theorem cfg_mem_buildCommand (d : Data) (p : String) (pf : Option String) :
    JValue.jstr p ∈ Plain.buildCommand d (some p) pf := by
  unfold Plain.buildCommand
  simp

theorem create_none (reg : List String) (ext p : String) :
    Plain.create_temp_file reg none ext p = (.noFile, reg) := rfl

theorem create_jstr_empty (reg : List String) (c ext p : String)
    (hc : c.isEmpty = true) :
    Plain.create_temp_file reg (some (.jstr c)) ext p = (.noFile, reg) := by
  unfold Plain.create_temp_file
  simp [JValue.truthy, hc]

theorem create_jstr_toolarge (reg : List String) (c ext p : String)
    (hc : c.isEmpty = false) (hlen : Secure.MAX_REQUEST_SIZE < c.length) :
    Plain.create_temp_file reg (some (.jstr c)) ext p
      = (.valueError "Content too large (max 10MB)", reg) := by
  unfold Plain.create_temp_file
  simp [JValue.truthy, hc, hlen]

theorem create_jstr_created (reg : List String) (c ext p : String)
    (hc : c.isEmpty = false) (hlen : ¬(Secure.MAX_REQUEST_SIZE < c.length))
    (hext : Secure.ALLOWED_EXTENSIONS.contains ext = true) :
    Plain.create_temp_file reg (some (.jstr c)) ext p = (.created p, reg ++ [p]) := by
  unfold Plain.create_temp_file
  simp [JValue.truthy, hc, hlen]
  simpa using hext

theorem plain_tail_400 (runner : List JValue → Plain.POut) (dbg : Bool) (d : Data)
    (cfgPath : String) (pf : Option String) (files reg : List String)
    (hstr : ∀ p ∈ d, p.2.isStr = true)
    (habs : startsWithL "/".data cfgPath.data = true) :
    ∃ m, Plain.runStage runner dbg (Plain.buildCommand d (some cfgPath) pf) files reg
        = ⟨⟨400, .err m⟩, files, [], [], reg⟩ ∧
      (m = "Invalid characters in command arguments" ∨ m = "Invalid path in arguments") := by
  have hmem := cfg_mem_buildCommand d cfgPath pf
  have hall := buildCommand_all_jstr d (some cfgPath) pf hstr
  rcases hscr : Plain.screen (Plain.buildCommand d (some cfgPath) pf) with _ | r
  · exact absurd ((screen_eq_none_iff _).mp hscr _ hmem) (screenArg_jstr_ne_none cfgPath habs)
  · obtain ⟨st, m⟩ := r
    obtain ⟨a, ham, hsa⟩ := screen_eq_some_mem _ _ hscr
    have has := hall a ham
    have hex : ∃ s, a = JValue.jstr s := by
      cases a
      · exact ⟨_, rfl⟩
      all_goals simp [JValue.isStr] at has
    obtain ⟨s, rfl⟩ := hex
    rcases screenArg_jstr_cases s (st, m) hsa with hr | hr
    · simp only [Prod.mk.injEq] at hr
      obtain ⟨h1, h2⟩ := hr
      subst h1; subst h2
      exact ⟨_, runStage_screened runner dbg _ files reg _ _ hscr, Or.inl rfl⟩
    · simp only [Prod.mk.injEq] at hr
      obtain ⟨h1, h2⟩ := hr
      subst h1; subst h2
      exact ⟨_, runStage_screened runner dbg _ files reg _ _ hscr, Or.inr rfl⟩


theorem plain_config_staged_400
    (runner : List JValue → Plain.POut) (dbg : Bool) (cfgPath pipePath : String)
    (reg : List String) (d : Data) (c : String)
    (hstr : ∀ p ∈ d, p.2.isStr = true)
    (heng : Plain.engineAllowed d = true)
    (hcfg : pyGet d "config" = some (.jstr c))
    (hc : c.isEmpty = false) (hlen : ¬(Secure.MAX_REQUEST_SIZE < c.length))
    (habs : startsWithL "/".data cfgPath.data = true) :
    ∃ m, (Plain.execute_fluentCore runner dbg cfgPath pipePath reg d).resp
          = ⟨400, .err m⟩ ∧
      (Plain.execute_fluentCore runner dbg cfgPath pipePath reg d).procs = [] ∧
      cfgPath ∈ (Plain.execute_fluentCore runner dbg cfgPath pipePath reg d).files := by
  have hne : d.isEmpty = false := by
    cases d
    · simp [pyGet] at hcfg
    · rfl
  have hem := engineMissing_false_of_allowed d heng
  have hov := overrideRaises_false_of_str d hstr
  unfold Plain.execute_fluentCore
  simp only [hne, hem, heng, Bool.not_true, Bool.false_eq_true, if_false]
  rw [hcfg, create_jstr_created reg c ".json" cfgPath hc hlen (by decide)]
  rcases hp : pyGet d "pipelineFile" with _ | v
  · try rw [hp]
    have hcre : ∀ r : List String,
        Plain.create_temp_file r none ".yaml" pipePath = (.noFile, r) :=
      fun r => create_none r ".yaml" pipePath
    simp only [hcre, hov, Bool.false_eq_true, if_false, StageResult.stagedPath,
      StageResult.stagedFiles, List.append_nil]
    obtain ⟨m, hm, hmsg⟩ := plain_tail_400 runner dbg d cfgPath none
      [cfgPath] (reg ++ [cfgPath]) hstr habs
    exact ⟨m, by rw [hm], by rw [hm], by rw [hm]; simp⟩
  · have hv := hstr _ (mem_of_pyGet d "pipelineFile" v hp)
    have hexv : ∃ q, v = JValue.jstr q := by
      cases v
      · exact ⟨_, rfl⟩
      all_goals simp [JValue.isStr] at hv
    obtain ⟨q, rfl⟩ := hexv
    try rw [hp]
    rcases hqe : q.isEmpty with _ | _
    · by_cases hql : Secure.MAX_REQUEST_SIZE < q.length
      · have hcre : ∀ r : List String,
            Plain.create_temp_file r (some (JValue.jstr q)) ".yaml" pipePath
              = (.valueError "Content too large (max 10MB)", r) :=
          fun r => create_jstr_toolarge r q ".yaml" pipePath hqe hql
        simp only [hcre, StageResult.stagedFiles]
        refine ⟨"Content too large (max 10MB)", ?_, ?_, ?_⟩ <;> simp
      · have hcre : ∀ r : List String,
            Plain.create_temp_file r (some (JValue.jstr q)) ".yaml" pipePath
              = (.created pipePath, r ++ [pipePath]) :=
          fun r => create_jstr_created r q ".yaml" pipePath hqe hql (by decide)
        simp only [hcre, hov, Bool.false_eq_true, if_false, StageResult.stagedPath,
          StageResult.stagedFiles]
        obtain ⟨m, hm, hmsg⟩ := plain_tail_400 runner dbg d cfgPath (some pipePath)
          ([cfgPath] ++ [pipePath]) (reg ++ [cfgPath] ++ [pipePath]) hstr habs
        exact ⟨m, by rw [hm], by rw [hm], by rw [hm]; simp⟩
    · have hcre : ∀ r : List String,
          Plain.create_temp_file r (some (JValue.jstr q)) ".yaml" pipePath
            = (.noFile, r) :=
        fun r => create_jstr_empty r q ".yaml" pipePath hqe
      simp only [hcre, hov, Bool.false_eq_true, if_false, StageResult.stagedPath,
        StageResult.stagedFiles, List.append_nil]
      obtain ⟨m, hm, hmsg⟩ := plain_tail_400 runner dbg d cfgPath none
        [cfgPath] (reg ++ [cfgPath]) hstr habs
      exact ⟨m, by rw [hm], by rw [hm], by rw [hm]; simp⟩

theorem plain_clean_path_error (runner : List JValue → Plain.POut) (dbg : Bool)
    (e c cfgPath pipePath : String) (reg : List String)
    (he : e ∈ Secure.ALLOWED_ENGINES)
    (hc : c.isEmpty = false) (hlen : ¬(Secure.MAX_REQUEST_SIZE < c.length))
    (hnd : cfgPath.data.any (fun ch => Plain.dangerousChars.contains ch) = false)
    (hdd : containsSubS ".." cfgPath = false)
    (habs : startsWithL "/".data cfgPath.data = true) :
    Plain.execute_fluentCore runner dbg cfgPath pipePath reg
        [("engine", .jstr e), ("config", .jstr c)]
      = ⟨⟨400, .err "Invalid path in arguments"⟩, [cfgPath], [], [], reg ++ [cfgPath]⟩ := by
  have heng : Plain.engineAllowed [("engine", JValue.jstr e), ("config", JValue.jstr c)]
      = true := by
    refine List.any_eq_true.mpr ⟨e, he, ?_⟩
    simp [Plain.engineValue, pyGet]
  have hem : Plain.engineMissing [("engine", JValue.jstr e), ("config", JValue.jstr c)]
      = false := by
    simp [Plain.engineMissing]
  have hg1 : pyGet [("engine", JValue.jstr e), ("config", JValue.jstr c)] "config"
      = some (JValue.jstr c) := rfl
  have hg2 : pyGet [("engine", JValue.jstr e), ("config", JValue.jstr c)] "pipelineFile"
      = (none : Option JValue) := rfl
  have hov : Secure.overrideRaises [("engine", JValue.jstr e), ("config", JValue.jstr c)]
      = false := rfl
  have hcre : ∀ r : List String,
      Plain.create_temp_file r none ".yaml" pipePath = (.noFile, r) :=
    fun r => create_none r ".yaml" pipePath
  unfold Plain.execute_fluentCore
  simp only [List.isEmpty_cons, hem, heng, Bool.not_true, Bool.false_eq_true, if_false]
  rw [hg1, create_jstr_created reg c ".json" cfgPath hc hlen (by decide)]
  rw [hg2]
  simp only [hcre, hov, Bool.false_eq_true, if_false, StageResult.stagedPath,
    StageResult.stagedFiles, List.append_nil]
  have hbuild : Plain.buildCommand [("engine", JValue.jstr e), ("config", JValue.jstr c)]
      (some cfgPath) none
      = [JValue.jstr "fluent", JValue.jstr e, JValue.jstr "-c", JValue.jstr cfgPath] := rfl
  have hse : Plain.screenArg (JValue.jstr e) = none := by
    fin_cases he <;> rfl
  have hsp : Plain.screenArg (JValue.jstr cfgPath)
      = some (400, "Invalid path in arguments") := by
    unfold Plain.screenArg
    simp only [JValue.pyStr, hnd, Bool.false_eq_true, if_false, hdd, habs, if_true]
  have hscreen :
      Plain.screen [JValue.jstr "fluent", JValue.jstr e, JValue.jstr "-c",
        JValue.jstr cfgPath] = some (400, "Invalid path in arguments") := by
    simp only [Plain.screen, show Plain.screenArg (JValue.jstr "fluent") = none from rfl,
      hse, show Plain.screenArg (JValue.jstr "-c") = none from rfl, hsp]
  rw [hbuild, runStage_screened runner dbg _ _ _ 400 "Invalid path in arguments" hscreen]


/-- C10 counterexample: request d10 has non-empty config content, so the
config temp file is staged, but the request field x"y fails the
dangerous-character screen first: the rejection message is the character
error, not the path error the claim promises. -/
theorem C10_cex :
    (Plain.execute_fluentCore (fun _ => Plain.POut.raised) false
        "/tmp/fluent_temp_a.json" "/tmp/fluent_temp_b.yaml" [] d10).resp
        = ⟨400, Body.err "Invalid characters in command arguments"⟩ ∧
    "Invalid characters in command arguments" ≠ "Invalid path in arguments" ∧
    (Plain.execute_fluentCore (fun _ => Plain.POut.raised) false
        "/tmp/fluent_temp_a.json" "/tmp/fluent_temp_b.yaml" [] d10).files
        = ["/tmp/fluent_temp_a.json"] ∧
    (Plain.execute_fluentCore (fun _ => Plain.POut.raised) false
        "/tmp/fluent_temp_a.json" "/tmp/fluent_temp_b.yaml" [] d10).procs = [] := by
  decide

theorem secure_create_none (reg : List String) (ext p : String) :
    Secure.create_temp_file reg none ext p = (.noFile, reg) := rfl

theorem secure_create_empty (reg : List String) (ext p s : String)
    (hs : s.isEmpty = true) :
    Secure.create_temp_file reg (some (.jstr s)) ext p = (.noFile, reg) := by
  unfold Secure.create_temp_file
  simp [JValue.truthy, hs]

theorem plain_create_empty (reg : List String) (ext p s : String)
    (hs : s.isEmpty = true) :
    Plain.create_temp_file reg (some (.jstr s)) ext p = (.noFile, reg) := by
  unfold Plain.create_temp_file
  simp [JValue.truthy, hs]

theorem secure_create_created_iff (reg : List String) (ext p s : String) :
    Secure.create_temp_file reg (some (.jstr s)) ext p = (.created p, reg ++ [p]) ↔
      (s.isEmpty = false ∧ ¬(Secure.MAX_REQUEST_SIZE < s.length) ∧
        ext ∈ Secure.ALLOWED_EXTENSIONS ∧ Secure.contentDangerous s = false) := by
  unfold Secure.create_temp_file
  rcases hs : s.isEmpty with _ | _
  · simp only [JValue.truthy, hs, Bool.not_false, Bool.not_true, Bool.false_eq_true,
      if_false]
    by_cases h1 : Secure.MAX_REQUEST_SIZE < s.length
    · simp [h1]
    · by_cases h2 : ext ∈ Secure.ALLOWED_EXTENSIONS
      · by_cases h3 : Secure.contentDangerous s
        · simp [h1, h2, h3]
        · simp [h1, h2, h3]
      · simp [h1, h2]
  · simp [JValue.truthy, hs]

theorem plain_create_created_iff (reg : List String) (ext p s : String) :
    Plain.create_temp_file reg (some (.jstr s)) ext p = (.created p, reg ++ [p]) ↔
      (s.isEmpty = false ∧ ¬(Secure.MAX_REQUEST_SIZE < s.length) ∧
        ext ∈ Secure.ALLOWED_EXTENSIONS) := by
  unfold Plain.create_temp_file
  rcases hs : s.isEmpty with _ | _
  · simp only [JValue.truthy, hs, Bool.not_false, Bool.not_true, Bool.false_eq_true,
      if_false]
    by_cases h1 : Secure.MAX_REQUEST_SIZE < s.length
    · simp [h1]
    · by_cases h2 : ext ∈ Secure.ALLOWED_EXTENSIONS
      · simp [h1, h2]
      · simp [h1, h2]
  · simp [JValue.truthy, hs]

theorem secure_create_dangerous (reg : List String) (ext p s : String)
    (hs : s.isEmpty = false) (h1 : ¬(Secure.MAX_REQUEST_SIZE < s.length))
    (h2 : ext ∈ Secure.ALLOWED_EXTENSIONS) (h3 : Secure.contentDangerous s = true) :
    Secure.create_temp_file reg (some (.jstr s)) ext p
      = (.valueError "Content contains dangerous patterns", reg) := by
  unfold Secure.create_temp_file
  simp [JValue.truthy, hs, h1, h2, h3]

/-- C8 counterexample: with an allow-listed extension and content under the
size bound, the secure create_temp_file still fails on the dangerous-content
scan, and present-but-empty content returns no file rather than staging
one: failure modes and the none-condition both exceed the claimed contract. -/
theorem C8_cex :
    Secure.create_temp_file [] (some (.jstr "javascript:x")) ".txt" "/tmp/fluent_secure_w.txt"
      = (.valueError "Content contains dangerous patterns", []) ∧
    ".txt" ∈ Secure.ALLOWED_EXTENSIONS ∧
    "javascript:x".length ≤ Secure.MAX_REQUEST_SIZE ∧
    Secure.create_temp_file [] (some (.jstr "")) ".json" "/tmp/fluent_secure_w.json"
      = (.noFile, []) := by
  decide

/-- C8 (amended): both create_temp_file functions return no file when
content is absent OR present but empty (falsy); string content stages
successfully and registers the path exactly when it is non-empty, within
the 10MB bound, and the extension is allow-listed — and, in
frontend_secure.py only, the content matches none of the dangerous
patterns, which otherwise fail the staging with a dedicated error. -/
theorem C8_staging_contract :
    (∀ (reg : List String) (ext p : String),
      Secure.create_temp_file reg none ext p = (.noFile, reg) ∧
      Plain.create_temp_file reg none ext p = (.noFile, reg)) ∧
    (∀ (reg : List String) (ext p s : String), s.isEmpty = true →
      Secure.create_temp_file reg (some (.jstr s)) ext p = (.noFile, reg) ∧
      Plain.create_temp_file reg (some (.jstr s)) ext p = (.noFile, reg)) ∧
    (∀ (reg : List String) (ext p s : String),
      Secure.create_temp_file reg (some (.jstr s)) ext p = (.created p, reg ++ [p]) ↔
        (s.isEmpty = false ∧ ¬(Secure.MAX_REQUEST_SIZE < s.length) ∧
          ext ∈ Secure.ALLOWED_EXTENSIONS ∧ Secure.contentDangerous s = false)) ∧
    (∀ (reg : List String) (ext p s : String),
      Plain.create_temp_file reg (some (.jstr s)) ext p = (.created p, reg ++ [p]) ↔
        (s.isEmpty = false ∧ ¬(Secure.MAX_REQUEST_SIZE < s.length) ∧
          ext ∈ Secure.ALLOWED_EXTENSIONS)) ∧
    (∀ (reg : List String) (ext p s : String),
      s.isEmpty = false → ¬(Secure.MAX_REQUEST_SIZE < s.length) →
      ext ∈ Secure.ALLOWED_EXTENSIONS → Secure.contentDangerous s = true →
      Secure.create_temp_file reg (some (.jstr s)) ext p
        = (.valueError "Content contains dangerous patterns", reg)) := by
  refine ⟨?_, ?_, ?_, ?_, ?_⟩
  · exact fun reg ext p => ⟨secure_create_none reg ext p, create_none reg ext p⟩
  · exact fun reg ext p s hs =>
      ⟨secure_create_empty reg ext p s hs, plain_create_empty reg ext p s hs⟩
  · exact fun reg ext p s => secure_create_created_iff reg ext p s
  · exact fun reg ext p s => plain_create_created_iff reg ext p s
  · exact fun reg ext p s hs h1 h2 h3 => secure_create_dangerous reg ext p s hs h1 h2 h3

/-- C8 witness: the staging contract applied at concrete contents — a
dangerous-pattern failure, an empty-content no-file, and a successful
staging that registers the path. -/
theorem C8_staging_contract_witness :
    Secure.create_temp_file [] (some (.jstr "javascript:alert"))
        ".yaml" "/tmp/fluent_secure_x.yaml"
      = (.valueError "Content contains dangerous patterns", []) ∧
    Secure.create_temp_file [] (some (.jstr "")) ".yml" "/tmp/fluent_secure_x.yml"
      = (.noFile, []) ∧
    Plain.create_temp_file ["old"] (some (.jstr "x")) ".json" "/tmp/fluent_temp_x.json"
      = (.created "/tmp/fluent_temp_x.json", ["old", "/tmp/fluent_temp_x.json"]) := by
  refine ⟨?_, ?_, ?_⟩
  · exact C8_staging_contract.2.2.2.2 [] ".yaml" "/tmp/fluent_secure_x.yaml"
      "javascript:alert" (by decide) (by decide) (by decide) (by decide)
  · exact (C8_staging_contract.2.1 [] ".yml" "/tmp/fluent_secure_x.yml" "" (by decide)).1
  · exact (C8_staging_contract.2.2.2.1 ["old"] ".json" "/tmp/fluent_temp_x.json" "x").mpr
      (by decide)


theorem aux_false_cons (c : Char) (rest : List Char) :
    Secure.redactPathsAux false (c :: rest)
      = if Secure.pathMatchHead (c :: rest) then
          Secure.REDP ++ Secure.redactPathsAux true rest
        else c :: Secure.redactPathsAux false rest := rfl

theorem aux_true_cons (c : Char) (rest : List Char) :
    Secure.redactPathsAux true (c :: rest)
      = if nonSpace c then Secure.redactPathsAux true rest
        else c :: Secure.redactPathsAux false rest := rfl

theorem space_not_slash (c : Char) (h : isPySpace c = true) : (decide (c = '/')) = false := by
  simp [isPySpace] at h
  rcases h with ((((h | h) | h) | h) | h) | h <;> subst h <;> decide

theorem redactPathsAux_true_eq (l : List Char) :
    Secure.redactPathsAux true l = Secure.redactPathsAux false (l.dropWhile nonSpace) := by
  induction l with
  | nil => rfl
  | cons c rest ih =>
    rw [aux_true_cons, List.dropWhile_cons]
    rcases hc : nonSpace c with _ | _
    · simp only [hc, Bool.false_eq_true, if_false]
      have hs : isPySpace c = true := by simpa [nonSpace] using hc
      rw [aux_false_cons]
      have hpm : Secure.pathMatchHead (c :: rest) = false := by
        simp [Secure.pathMatchHead, space_not_slash c hs]
      simp [hpm]
    · simp only [hc, if_true]
      exact ih

theorem containsSub_tail (pat : List Char) (c : Char) (r : List Char)
    (h : containsSub pat (c :: r) = false) : containsSub pat r = false := by
  have : containsSub pat (c :: r) = (startsWithL pat (c :: r) || containsSub pat r) := rfl
  rw [this] at h
  exact (Bool.or_eq_false_iff.mp h).2

theorem pathRun_cons_nonspace (c : Char) (rest : List Char) (hc : nonSpace c = true) :
    Secure.pathRun (c :: rest) = c :: Secure.pathRun rest := by
  simp [Secure.pathRun, List.takeWhile_cons, hc]

theorem aux_false_run (l : List Char)
    (hF : containsSub Secure.fluentL (Secure.pathRun l) = false) :
    Secure.redactPathsAux false l
      = Secure.pathRun l ++ Secure.redactPathsAux false (l.dropWhile nonSpace) := by
  induction l with
  | nil => rfl
  | cons c rest ih =>
    rcases hc : nonSpace c with _ | _
    · have h1 : Secure.pathRun (c :: rest) = [] := by
        simp [Secure.pathRun, List.takeWhile_cons, hc]
      have h2 : (c :: rest).dropWhile nonSpace = c :: rest := by
        simp [List.dropWhile_cons, hc]
      rw [h1, h2]
      rfl
    · have h1 := pathRun_cons_nonspace c rest hc
      have hF2 : containsSub Secure.fluentL (Secure.pathRun rest) = false := by
        rw [h1] at hF
        exact containsSub_tail _ c _ hF
      have hpm : Secure.pathMatchHead (c :: rest) = false := by
        simp [Secure.pathMatchHead, hF2]
      have h2 : (c :: rest).dropWhile nonSpace = rest.dropWhile nonSpace := by
        simp [List.dropWhile_cons, hc]
      rw [aux_false_cons, hpm]
      simp only [Bool.false_eq_true, if_false]
      rw [ih hF2, h1, h2]
      rfl

theorem hasPathMatch_append (A X : List Char)
    (hA : ∀ a ∈ A, (decide (a = '/')) = false) :
    Secure.hasPathMatch (A ++ X) = Secure.hasPathMatch X := by
  induction A with
  | nil => rfl
  | cons a A2 ih =>
    show Secure.hasPathMatch (a :: (A2 ++ X)) = _
    have h1 : Secure.hasPathMatch (a :: (A2 ++ X))
        = (Secure.pathMatchHead (a :: (A2 ++ X)) || Secure.hasPathMatch (A2 ++ X)) := rfl
    rw [h1, ih (fun x hx => hA x (List.mem_cons_of_mem a hx))]
    have h2 : Secure.pathMatchHead (a :: (A2 ++ X)) = false := by
      simp [Secure.pathMatchHead, hA a (List.mem_cons_self a A2)]
    rw [h2]
    simp

theorem takeWhile_append_all (p : Char → Bool) (A B : List Char)
    (h : ∀ a ∈ A, p a = true) : (A ++ B).takeWhile p = A ++ B.takeWhile p := by
  induction A with
  | nil => rfl
  | cons a A2 ih =>
    show List.takeWhile p (a :: (A2 ++ B)) = _
    rw [List.takeWhile_cons, h a (List.mem_cons_self a A2)]
    simp only [if_true]
    rw [ih (fun x hx => h x (List.mem_cons_of_mem a hx))]
    rfl

theorem mem_pathRun_nonSpace (l : List Char) : ∀ a ∈ Secure.pathRun l, nonSpace a = true := by
  induction l with
  | nil => intro a ha; simp [Secure.pathRun] at ha
  | cons c rest ih =>
    intro a ha
    unfold Secure.pathRun at ha
    rw [List.takeWhile_cons] at ha
    rcases hc : nonSpace c with _ | _
    · rw [hc] at ha; simp at ha
    · rw [hc] at ha
      simp only [if_true] at ha
      rcases List.mem_cons.mp ha with h | h
      · rw [h]; exact hc
      · exact ih a h

theorem dropWhile_head_false (p : Char → Bool) :
    ∀ (l : List Char) (s : Char) (r2 : List Char), l.dropWhile p = s :: r2 → p s = false := by
  intro l
  induction l with
  | nil => intro s r2 h; simp at h
  | cons c rest ih =>
    intro s r2 h
    rw [List.dropWhile_cons] at h
    rcases hc : p c with _ | _
    · rw [hc] at h
      simp only [Bool.false_eq_true, if_false] at h
      injection h with h1 h2
      rw [h1] at hc
      exact hc
    · rw [hc] at h
      simp only [if_true] at h
      exact ih s r2 h

theorem pathRun_redact_tail (rest : List Char) :
    (Secure.redactPathsAux false (rest.dropWhile nonSpace)).takeWhile nonSpace = [] := by
  rcases hd : rest.dropWhile nonSpace with _ | ⟨s, r2⟩
  · rfl
  · have hs : nonSpace s = false := dropWhile_head_false nonSpace rest s r2 hd
    have hsp : isPySpace s = true := by simpa [nonSpace] using hs
    have hpm : Secure.pathMatchHead (s :: r2) = false := by
      simp [Secure.pathMatchHead, space_not_slash s hsp]
    rw [aux_false_cons, hpm]
    simp [List.takeWhile_cons, hs]

theorem dropWhile_length_le (p : Char → Bool) (l : List Char) :
    (l.dropWhile p).length ≤ l.length := by
  induction l with
  | nil => simp
  | cons c rest ih =>
    rw [List.dropWhile_cons]
    rcases hc : p c with _ | _
    · simp
    · simp only [if_true]
      exact le_trans ih (by simp)

theorem redactPaths_nomatch_aux :
    ∀ (n : Nat) (l : List Char), l.length ≤ n →
      Secure.hasPathMatch (Secure.redactPathsAux false l) = false := by
  intro n
  induction n with
  | zero =>
    intro l hl
    have h0 : l = [] := List.length_eq_zero.mp (Nat.le_zero.mp hl)
    subst h0
    rfl
  | succ n ih =>
    intro l hl
    cases l with
    | nil => rfl
    | cons c rest =>
      have hrest : rest.length ≤ n := by
        simp only [List.length_cons] at hl
        omega
      rcases hpm : Secure.pathMatchHead (c :: rest) with _ | _
      · rw [aux_false_cons, hpm]
        simp only [Bool.false_eq_true, if_false]
        have hmain : Secure.hasPathMatch (c :: Secure.redactPathsAux false rest)
            = (Secure.pathMatchHead (c :: Secure.redactPathsAux false rest)
                || Secure.hasPathMatch (Secure.redactPathsAux false rest)) := rfl
        rw [hmain, ih rest hrest]
        rcases hc : (decide (c = '/')) with _ | _
        · simp [Secure.pathMatchHead, hc]
        · have hF : containsSub Secure.fluentL (Secure.pathRun rest) = false := by
            have : Secure.pathMatchHead (c :: rest)
                = ((decide (c = '/')) && containsSub Secure.fluentL (Secure.pathRun rest)) := rfl
            rw [this, hc] at hpm
            simpa using hpm
          rw [aux_false_run rest hF]
          have hrun : Secure.pathRun
              (Secure.pathRun rest ++ Secure.redactPathsAux false (rest.dropWhile nonSpace))
              = Secure.pathRun rest := by
            have e1 : Secure.pathRun
                (Secure.pathRun rest ++ Secure.redactPathsAux false (rest.dropWhile nonSpace))
                = List.takeWhile nonSpace
                    (Secure.pathRun rest
                      ++ Secure.redactPathsAux false (rest.dropWhile nonSpace)) := rfl
            rw [e1, takeWhile_append_all nonSpace (Secure.pathRun rest) _
              (mem_pathRun_nonSpace rest), pathRun_redact_tail rest]
            simp
          have : Secure.pathMatchHead (c :: (Secure.pathRun rest
                ++ Secure.redactPathsAux false (rest.dropWhile nonSpace)))
              = ((decide (c = '/')) && containsSub Secure.fluentL (Secure.pathRun (Secure.pathRun rest
                ++ Secure.redactPathsAux false (rest.dropWhile nonSpace)))) := rfl
          rw [this, hrun, hF]
          simp
      · rw [aux_false_cons, hpm]
        simp only [if_true]
        rw [redactPathsAux_true_eq]
        rw [hasPathMatch_append Secure.REDP _ (by decide)]
        exact ih (rest.dropWhile nonSpace)
          (le_trans (dropWhile_length_le nonSpace rest) hrest)

theorem redactPaths_nomatch (s : String) :
    Secure.hasPathMatch (Secure.redactPaths s).data = false := by
  show Secure.hasPathMatch (Secure.redactPathsAux false s.data) = false
  exact redactPaths_nomatch_aux s.data.length s.data le_rfl


theorem aux_false_cons_k (c : Char) (rest : List Char) :
    Secure.redactKeysAux false (c :: rest)
      = if Secure.keyHd (c :: rest) then
          Secure.REDK ++ Secure.redactKeysAux true rest
        else c :: Secure.redactKeysAux false rest := rfl

theorem aux_true_cons_k (c : Char) (rest : List Char) :
    Secure.redactKeysAux true (c :: rest)
      = if nonSpace c then Secure.redactKeysAux true rest
        else c :: Secure.redactKeysAux false rest := rfl

theorem hkm_cons (c : Char) (rest : List Char) :
    Secure.hasKeyMatch (c :: rest)
      = (Secure.keyHd (c :: rest) || Secure.hasKeyMatch rest) := rfl

theorem space_not_a (c : Char) (h : isPySpace c = true) : eqCI c 'a' = false := by
  simp [isPySpace] at h
  rcases h with ((((h | h) | h) | h) | h) | h <;> subst h <;> decide

theorem keyHd_space (c : Char) (rest : List Char) (h : isPySpace c = true) :
    Secure.keyHd (c :: rest) = false := by
  unfold Secure.keyHd
  have e : startsWithCI "api".data (c :: rest)
      = (eqCI c 'a' && startsWithCI ("pi".data) rest) := rfl
  rw [e, space_not_a c h]
  simp

theorem redactKeysAux_true_eq (l : List Char) :
    Secure.redactKeysAux true l = Secure.redactKeysAux false (l.dropWhile nonSpace) := by
  induction l with
  | nil => rfl
  | cons c rest ih =>
    rw [aux_true_cons_k, List.dropWhile_cons]
    rcases hc : nonSpace c with _ | _
    · simp only [hc, Bool.false_eq_true, if_false]
      have hs : isPySpace c = true := by simpa [nonSpace] using hc
      rw [aux_false_cons_k, keyHd_space c rest hs]
      simp
    · simp only [hc, if_true]
      exact ih

theorem swCI_skip :
    ∀ (pat P Q R : List Char), (∀ pc ∈ pat, eqCI '[' pc = false) →
      startsWithCI pat (P ++ '[' :: Q) = true → startsWithCI pat (P ++ R) = true := by
  intro pat
  induction pat with
  | nil => intro P Q R hpat h; rfl
  | cons p ps ih =>
    intro P Q R hpat h
    cases P with
    | nil =>
      simp only [List.nil_append] at h
      have e : startsWithCI (p :: ps) ('[' :: Q) = (eqCI '[' p && startsWithCI ps Q) := rfl
      rw [e, hpat p (List.mem_cons_self p ps)] at h
      simp at h
    | cons a P2 =>
      simp only [List.cons_append] at h ⊢
      have e1 : startsWithCI (p :: ps) (a :: (P2 ++ '[' :: Q))
          = (eqCI a p && startsWithCI ps (P2 ++ '[' :: Q)) := rfl
      have e2 : startsWithCI (p :: ps) (a :: (P2 ++ R))
          = (eqCI a p && startsWithCI ps (P2 ++ R)) := rfl
      rw [e1] at h
      rw [e2]
      simp only [Bool.and_eq_true] at h
      obtain ⟨h1, h2⟩ := h
      rw [h1, ih P2 Q R (fun pc hpc => hpat pc (List.mem_cons_of_mem p hpc)) h2]
      rfl

theorem swCI_le : ∀ (pat l : List Char), startsWithCI pat l = true → pat.length ≤ l.length := by
  intro pat
  induction pat with
  | nil => intro l h; simp
  | cons p ps ih =>
    intro l h
    cases l with
    | nil => simp [startsWithCI] at h
    | cons c cs =>
      have e : startsWithCI (p :: ps) (c :: cs) = (eqCI c p && startsWithCI ps cs) := rfl
      rw [e] at h
      simp only [Bool.and_eq_true] at h
      obtain ⟨h1, h2⟩ := h
      simpa using Nat.succ_le_succ (ih cs h2)

theorem keyHd_skip (P Q R : List Char) (h : Secure.keyHd (P ++ '[' :: Q) = true) :
    Secure.keyHd (P ++ R) = true := by
  have hapi : ∀ pc ∈ ("api".data : List Char), eqCI '[' pc = false := by decide
  have hkey : ∀ pc ∈ ("key".data : List Char), eqCI '[' pc = false := by decide
  unfold Secure.keyHd at h ⊢
  simp only [Bool.and_eq_true] at h
  obtain ⟨h1, h23⟩ := h
  have h1R : startsWithCI "api".data (P ++ R) = true := swCI_skip _ P Q R hapi h1
  have hP3 : 3 ≤ P.length := by
    have h1nil := swCI_skip "api".data P Q [] hapi h1
    rw [List.append_nil] at h1nil
    have := swCI_le "api".data P h1nil
    simpa using this
  have hd3 : (P ++ '[' :: Q).drop 3 = P.drop 3 ++ '[' :: Q := by
    rw [List.drop_append_eq_append_drop, Nat.sub_eq_zero_of_le hP3, List.drop_zero]
  have hd3R : (P ++ R).drop 3 = P.drop 3 ++ R := by
    rw [List.drop_append_eq_append_drop, Nat.sub_eq_zero_of_le hP3, List.drop_zero]
  rw [hd3] at h23
  rw [h1R, hd3R]
  simp only [Bool.true_and]
  simp only [Bool.or_eq_true] at h23
  rcases h23 with h2 | h3
  · rw [swCI_skip "key".data (P.drop 3) Q R hkey h2]
    simp
  · simp only [Bool.and_eq_true] at h3
    obtain ⟨hud, h4⟩ := h3
    rcases hP3d : P.drop 3 with _ | ⟨u, P4⟩
    · rw [hP3d] at hud
      simp [Secure.headIsUD] at hud
    · rw [hP3d] at hud
      have hP4 : 4 ≤ P.length := by
        have hlen : (P.drop 3).length = P.length - 3 := List.length_drop 3 P
        rw [hP3d] at hlen
        simp at hlen
        omega
      have hd4 : (P ++ '[' :: Q).drop 4 = P.drop 4 ++ '[' :: Q := by
        rw [List.drop_append_eq_append_drop, Nat.sub_eq_zero_of_le hP4, List.drop_zero]
      have hd4R : (P ++ R).drop 4 = P.drop 4 ++ R := by
        rw [List.drop_append_eq_append_drop, Nat.sub_eq_zero_of_le hP4, List.drop_zero]
      rw [hd4] at h4
      have h4R := swCI_skip "key".data (P.drop 4) Q R hkey h4
      have hudR : Secure.headIsUD (u :: P4 ++ R) = true := by
        have e : Secure.headIsUD (u :: P4 ++ R)
            = Secure.headIsUD (u :: P4 ++ '[' :: Q) := rfl
        rw [e]
        exact hud
      have h4R2 : startsWithCI "key".data ((P ++ R).drop 4) = true := by
        rw [hd4R]
        exact h4R
      rw [hudR, h4R2]
      simp

theorem redactKeysAux_shape (l : List Char) :
    Secure.redactKeysAux false l = l ∨
      ∃ A B Q, l = A ++ B ∧ Secure.redactKeysAux false l = A ++ '[' :: Q := by
  induction l with
  | nil => exact Or.inl rfl
  | cons c rest ih =>
    rcases hk : Secure.keyHd (c :: rest) with _ | _
    · rw [aux_false_cons_k, hk]
      simp only [Bool.false_eq_true, if_false]
      rcases ih with h | ⟨A, B, Q, hl, ha⟩
      · exact Or.inl (by rw [h])
      · exact Or.inr ⟨c :: A, B, Q, by rw [List.cons_append, ← hl], by rw [ha]; rfl⟩
    · rw [aux_false_cons_k, hk]
      simp only [if_true]
      exact Or.inr ⟨[], c :: rest,
        ('R' :: 'E' :: 'D' :: 'A' :: 'C' :: 'T' :: 'E' :: 'D' :: '_' :: 'K' :: 'E' :: 'Y'
          :: ']' :: []) ++ Secure.redactKeysAux true rest, rfl, rfl⟩

theorem keyHd_not_a (c : Char) (l : List Char) (h : eqCI c 'a' = false) :
    Secure.keyHd (c :: l) = false := by
  unfold Secure.keyHd
  have e : startsWithCI "api".data (c :: l)
      = (eqCI c 'a' && startsWithCI ("pi".data) l) := rfl
  rw [e, h]
  simp

theorem keyHd_not_p (c d : Char) (l : List Char) (h : eqCI d 'p' = false) :
    Secure.keyHd (c :: d :: l) = false := by
  unfold Secure.keyHd
  have e : startsWithCI "api".data (c :: d :: l)
      = (eqCI c 'a' && (eqCI d 'p' && startsWithCI ("i".data) l)) := rfl
  rw [e, h]
  simp

theorem hasKeyMatch_REDK_append (X : List Char) :
    Secure.hasKeyMatch (Secure.REDK ++ X) = Secure.hasKeyMatch X := by
  have h : Secure.REDK ++ X = '[' :: 'R' :: 'E' :: 'D' :: 'A' :: 'C' :: 'T' :: 'E'
      :: 'D' :: '_' :: 'K' :: 'E' :: 'Y' :: ']' :: X := rfl
  rw [h]
  rw [hkm_cons, keyHd_not_a '[' _ (by decide)]
  rw [hkm_cons, keyHd_not_a 'R' _ (by decide)]
  rw [hkm_cons, keyHd_not_a 'E' _ (by decide)]
  rw [hkm_cons, keyHd_not_a 'D' _ (by decide)]
  rw [hkm_cons, keyHd_not_p 'A' 'C' _ (by decide)]
  rw [hkm_cons, keyHd_not_a 'C' _ (by decide)]
  rw [hkm_cons, keyHd_not_a 'T' _ (by decide)]
  rw [hkm_cons, keyHd_not_a 'E' _ (by decide)]
  rw [hkm_cons, keyHd_not_a 'D' _ (by decide)]
  rw [hkm_cons, keyHd_not_a '_' _ (by decide)]
  rw [hkm_cons, keyHd_not_a 'K' _ (by decide)]
  rw [hkm_cons, keyHd_not_a 'E' _ (by decide)]
  rw [hkm_cons, keyHd_not_a 'Y' _ (by decide)]
  rw [hkm_cons, keyHd_not_a ']' _ (by decide)]
  simp

theorem redactKeys_nomatch_aux :
    ∀ (n : Nat) (l : List Char), l.length ≤ n →
      Secure.hasKeyMatch (Secure.redactKeysAux false l) = false := by
  intro n
  induction n with
  | zero =>
    intro l hl
    have h0 : l = [] := List.length_eq_zero.mp (Nat.le_zero.mp hl)
    subst h0
    rfl
  | succ n ih =>
    intro l hl
    cases l with
    | nil => rfl
    | cons c rest =>
      have hrest : rest.length ≤ n := by
        simp only [List.length_cons] at hl
        omega
      rcases hk : Secure.keyHd (c :: rest) with _ | _
      · rw [aux_false_cons_k, hk]
        simp only [Bool.false_eq_true, if_false]
        rw [hkm_cons, ih rest hrest]
        rcases hkO : Secure.keyHd (c :: Secure.redactKeysAux false rest) with _ | _
        · simp
        · exfalso
          rcases redactKeysAux_shape rest with hsh | ⟨A, B, Q, hlAB, ha⟩
          · rw [hsh] at hkO
            simp [hkO] at hk
          · rw [ha] at hkO
            have h2 : Secure.keyHd ((c :: A) ++ '[' :: Q) = true := hkO
            have h3 := keyHd_skip (c :: A) Q B h2
            rw [show (c :: A) ++ B = c :: (A ++ B) from rfl, ← hlAB] at h3
            simp [h3] at hk
      · rw [aux_false_cons_k, hk]
        simp only [if_true]
        rw [redactKeysAux_true_eq, hasKeyMatch_REDK_append]
        exact ih (rest.dropWhile nonSpace)
          (le_trans (dropWhile_length_le nonSpace rest) hrest)

theorem redactKeys_nomatch (s : String) :
    Secure.hasKeyMatch (Secure.redactKeys s).data = false := by
  show Secure.hasKeyMatch (Secure.redactKeysAux false s.data) = false
  exact redactKeys_nomatch_aux s.data.length s.data le_rfl


theorem exec_fail_error (runner : List String → Secure.ProcOutcome)
    (args : List String) (r : Secure.ProcResult)
    (hr : runner (Secure.sanitize_command_args args) = Secure.ProcOutcome.completed r)
    (hne : (r.returncode != 0) = true) :
    (Secure.execute_command_safely runner args).error
      = some ("Command execution failed: "
          ++ pyTake (Secure.redactError r.stderr) 500) := by
  unfold Secure.execute_command_safely
  rw [hr]
  simp only [hne, if_true]

theorem pyTake_len_le (s : String) (n : Nat) : (pyTake s n).length ≤ n := by
  show (s.data.take n).length ≤ n
  rw [List.length_take]
  exact min_le_left n s.data.length

/-- C5 counterexample: frontend.py answers a non-zero exit with 500 and
str(CalledProcessError), which embeds the full command line (here the
request token hello), with no redaction pass and no length bound. -/
theorem C5_cex :
    (Plain.execute_fluentCore (fun _ => Plain.POut.fail 2) false
        "/tmp/fluent_temp_c.json" "/tmp/fluent_temp_p.yaml" [] d5).resp
      = ⟨500, Body.err (Plain.cpeStr
          [JValue.jstr "fluent", JValue.jstr "openai", JValue.jstr "hello"] 2)⟩ ∧
    containsSubS "hello" (Plain.cpeStr
        [JValue.jstr "fluent", JValue.jstr "openai", JValue.jstr "hello"] 2) = true := by
  decide

/-- C5 (amended): in frontend_secure.py a completed execution with non-zero
exit returns exactly the redacted, truncated stderr diagnostic, of length
at most 526 (26-character prefix plus at most 500 kept characters); the
path-redaction pass leaves no position where the internal-tool path pattern
still matches, and the key-redaction pass leaves no position where the
API-key pattern still matches.  frontend.py does not have this property:
its diagnostic is str(CalledProcessError), which contains the command line
(the counterexample exhibits this). -/
theorem C5_redaction_bound :
    (∀ (runner : List String → Secure.ProcOutcome) (args : List String)
        (r : Secure.ProcResult),
      runner (Secure.sanitize_command_args args) = Secure.ProcOutcome.completed r →
      (r.returncode != 0) = true →
      (Secure.execute_command_safely runner args).error
          = some ("Command execution failed: "
              ++ pyTake (Secure.redactError r.stderr) 500) ∧
        ("Command execution failed: "
            ++ pyTake (Secure.redactError r.stderr) 500).length ≤ 526) ∧
    (∀ s : String, Secure.hasPathMatch (Secure.redactPaths s).data = false) ∧
    (∀ s : String, Secure.hasKeyMatch (Secure.redactKeys s).data = false) := by
  refine ⟨?_, redactPaths_nomatch, redactKeys_nomatch⟩
  intro runner args r hr hne
  constructor
  · exact exec_fail_error runner args r hr hne
  · rw [String.length_append]
    have h1 := pyTake_len_le (Secure.redactError r.stderr) 500
    have h2 : ("Command execution failed: ").length = 26 := rfl
    omega

/-- C5 witness: the amended theorem applied to a concrete failed execution
whose stderr holds an internal path and an API key, and to that stderr for
the two no-leftover-match properties. -/
theorem C5_redaction_bound_witness :
    ((Secure.execute_command_safely
        (fun _ => Secure.ProcOutcome.completed
          ⟨"", "fail at /usr/lib/fluent/cli: api_key=secret123", 1⟩)
        ["fluent", "openai", "hi"]).error
      = some ("Command execution failed: "
          ++ pyTake (Secure.redactError
              "fail at /usr/lib/fluent/cli: api_key=secret123") 500) ∧
      ("Command execution failed: "
          ++ pyTake (Secure.redactError
              "fail at /usr/lib/fluent/cli: api_key=secret123") 500).length ≤ 526) ∧
    Secure.hasPathMatch
      (Secure.redactPaths "fail at /usr/lib/fluent/cli: api_key=secret123").data = false ∧
    Secure.hasKeyMatch
      (Secure.redactKeys "fail at /usr/lib/fluent/cli: api_key=secret123").data = false := by
  refine ⟨C5_redaction_bound.1
    (fun _ => Secure.ProcOutcome.completed
      ⟨"", "fail at /usr/lib/fluent/cli: api_key=secret123", 1⟩)
    ["fluent", "openai", "hi"]
    ⟨"", "fail at /usr/lib/fluent/cli: api_key=secret123", 1⟩
    rfl (by decide), ?_, ?_⟩
  · exact C5_redaction_bound.2.1 "fail at /usr/lib/fluent/cli: api_key=secret123"
  · exact C5_redaction_bound.2.2 "fail at /usr/lib/fluent/cli: api_key=secret123"


theorem pipe_mem_buildCommand (d : Data) (p : String) (cfg : Option String) :
    JValue.jstr p ∈ Plain.buildCommand d cfg (some p) := by
  unfold Plain.buildCommand
  simp

theorem plain_tail_400_mem (runner : List JValue → Plain.POut) (dbg : Bool)
    (vec : List JValue) (files reg : List String)
    (hall : ∀ a ∈ vec, a.isStr = true)
    (a0 : JValue) (hmem : a0 ∈ vec) (hfail : Plain.screenArg a0 ≠ none) :
    ∃ m, Plain.runStage runner dbg vec files reg
        = ⟨⟨400, .err m⟩, files, [], [], reg⟩ ∧
      (m = "Invalid characters in command arguments" ∨ m = "Invalid path in arguments") := by
  rcases hscr : Plain.screen vec with _ | r
  · exact absurd ((screen_eq_none_iff _).mp hscr _ hmem) hfail
  · obtain ⟨st, m⟩ := r
    obtain ⟨a, ham, hsa⟩ := screen_eq_some_mem _ _ hscr
    have has := hall a ham
    have hex : ∃ s, a = JValue.jstr s := by
      cases a
      · exact ⟨_, rfl⟩
      all_goals simp [JValue.isStr] at has
    obtain ⟨s, rfl⟩ := hex
    rcases screenArg_jstr_cases s (st, m) hsa with hr | hr
    · simp only [Prod.mk.injEq] at hr
      obtain ⟨h1, h2⟩ := hr
      subst h1; subst h2
      exact ⟨_, runStage_screened runner dbg _ files reg _ _ hscr, Or.inl rfl⟩
    · simp only [Prod.mk.injEq] at hr
      obtain ⟨h1, h2⟩ := hr
      subst h1; subst h2
      exact ⟨_, runStage_screened runner dbg _ files reg _ _ hscr, Or.inr rfl⟩

theorem plain_tail_400_pipe (runner : List JValue → Plain.POut) (dbg : Bool) (d : Data)
    (cfg : Option String) (pipePath : String) (files reg : List String)
    (hstr : ∀ p ∈ d, p.2.isStr = true)
    (habs : startsWithL "/".data pipePath.data = true) :
    ∃ m, Plain.runStage runner dbg (Plain.buildCommand d cfg (some pipePath)) files reg
        = ⟨⟨400, .err m⟩, files, [], [], reg⟩ ∧
      (m = "Invalid characters in command arguments" ∨ m = "Invalid path in arguments") :=
  plain_tail_400_mem runner dbg _ files reg (buildCommand_all_jstr d cfg (some pipePath) hstr)
    (JValue.jstr pipePath) (pipe_mem_buildCommand d pipePath cfg)
    (screenArg_jstr_ne_none pipePath habs)

theorem plain_pipe_staged_400
    (runner : List JValue → Plain.POut) (dbg : Bool) (cfgPath pipePath : String)
    (reg : List String) (d : Data) (q : String)
    (hstr : ∀ p ∈ d, p.2.isStr = true)
    (heng : Plain.engineAllowed d = true)
    (hpipe : pyGet d "pipelineFile" = some (.jstr q))
    (hq : q.isEmpty = false) (hqlen : ¬(Secure.MAX_REQUEST_SIZE < q.length))
    (hcfglen : ∀ c, pyGet d "config" = some (.jstr c)
      → ¬(Secure.MAX_REQUEST_SIZE < c.length))
    (habs : startsWithL "/".data pipePath.data = true) :
    ∃ m, (Plain.execute_fluentCore runner dbg cfgPath pipePath reg d).resp
          = ⟨400, .err m⟩ ∧
      (Plain.execute_fluentCore runner dbg cfgPath pipePath reg d).procs = [] ∧
      pipePath ∈ (Plain.execute_fluentCore runner dbg cfgPath pipePath reg d).files := by
  have hne : d.isEmpty = false := by
    cases d
    · simp [pyGet] at hpipe
    · rfl
  have hem := engineMissing_false_of_allowed d heng
  have hov := overrideRaises_false_of_str d hstr
  have hpcre : ∀ r : List String,
      Plain.create_temp_file r (some (JValue.jstr q)) ".yaml" pipePath
        = (.created pipePath, r ++ [pipePath]) :=
    fun r => create_jstr_created r q ".yaml" pipePath hq hqlen (by decide)
  unfold Plain.execute_fluentCore
  simp only [hne, hem, heng, Bool.not_true, Bool.false_eq_true, if_false]
  rcases hcg : pyGet d "config" with _ | v
  · try rw [hcg]
    rw [create_none]
    try rw [hpipe]
    simp only [hpcre, hov, Bool.false_eq_true, if_false, StageResult.stagedPath,
      StageResult.stagedFiles, List.nil_append]
    obtain ⟨m, hm, hmsg⟩ := plain_tail_400_pipe runner dbg d none pipePath
      [pipePath] (reg ++ [pipePath]) hstr habs
    exact ⟨m, by rw [hm], by rw [hm], by rw [hm]; simp⟩
  · have hv := hstr _ (mem_of_pyGet d "config" v hcg)
    have hexv : ∃ c, v = JValue.jstr c := by
      cases v
      · exact ⟨_, rfl⟩
      all_goals simp [JValue.isStr] at hv
    obtain ⟨c, rfl⟩ := hexv
    try rw [hcg]
    rcases hce : c.isEmpty with _ | _
    · have hclen := hcfglen c hcg
      rw [create_jstr_created reg c ".json" cfgPath hce hclen (by decide)]
      try rw [hpipe]
      simp only [hpcre, hov, Bool.false_eq_true, if_false, StageResult.stagedPath,
        StageResult.stagedFiles]
      obtain ⟨m, hm, hmsg⟩ := plain_tail_400_pipe runner dbg d (some cfgPath) pipePath
        ([cfgPath] ++ [pipePath]) (reg ++ [cfgPath] ++ [pipePath]) hstr habs
      exact ⟨m, by rw [hm], by rw [hm], by rw [hm]; simp⟩
    · rw [create_jstr_empty reg c ".json" cfgPath hce]
      try rw [hpipe]
      simp only [hpcre, hov, Bool.false_eq_true, if_false, StageResult.stagedPath,
        StageResult.stagedFiles, List.nil_append]
      obtain ⟨m, hm, hmsg⟩ := plain_tail_400_pipe runner dbg d none pipePath
        [pipePath] (reg ++ [pipePath]) hstr habs
      exact ⟨m, by rw [hm], by rw [hm], by rw [hm]; simp⟩

theorem plain_clean_pipe_error (runner : List JValue → Plain.POut) (dbg : Bool)
    (e q cfgPath pipePath : String) (reg : List String)
    (he : e ∈ Secure.ALLOWED_ENGINES)
    (hq : q.isEmpty = false) (hqlen : ¬(Secure.MAX_REQUEST_SIZE < q.length))
    (hnd : pipePath.data.any (fun ch => Plain.dangerousChars.contains ch) = false)
    (hdd : containsSubS ".." pipePath = false)
    (habs : startsWithL "/".data pipePath.data = true) :
    Plain.execute_fluentCore runner dbg cfgPath pipePath reg
        [("engine", .jstr e), ("pipelineFile", .jstr q)]
      = ⟨⟨400, .err "Invalid path in arguments"⟩, [pipePath], [], [],
          reg ++ [pipePath]⟩ := by
  have heng : Plain.engineAllowed
      [("engine", JValue.jstr e), ("pipelineFile", JValue.jstr q)] = true := by
    refine List.any_eq_true.mpr ⟨e, he, ?_⟩
    simp [Plain.engineValue, pyGet]
  have hem : Plain.engineMissing
      [("engine", JValue.jstr e), ("pipelineFile", JValue.jstr q)] = false := by
    simp [Plain.engineMissing]
  have hg1 : pyGet [("engine", JValue.jstr e), ("pipelineFile", JValue.jstr q)] "config"
      = (none : Option JValue) := rfl
  have hg2 : pyGet [("engine", JValue.jstr e), ("pipelineFile", JValue.jstr q)]
      "pipelineFile" = some (JValue.jstr q) := rfl
  have hov : Secure.overrideRaises
      [("engine", JValue.jstr e), ("pipelineFile", JValue.jstr q)] = false := rfl
  have hpcre : ∀ r : List String,
      Plain.create_temp_file r (some (JValue.jstr q)) ".yaml" pipePath
        = (.created pipePath, r ++ [pipePath]) :=
    fun r => create_jstr_created r q ".yaml" pipePath hq hqlen (by decide)
  unfold Plain.execute_fluentCore
  simp only [List.isEmpty_cons, hem, heng, Bool.not_true, Bool.false_eq_true, if_false]
  rw [hg1, create_none, hg2]
  simp only [hpcre, hov, Bool.false_eq_true, if_false, StageResult.stagedPath,
    StageResult.stagedFiles, List.nil_append]
  have hbuild : Plain.buildCommand
      [("engine", JValue.jstr e), ("pipelineFile", JValue.jstr q)] none (some pipePath)
      = [JValue.jstr "fluent", JValue.jstr e, JValue.jstr "pipeline",
          JValue.jstr "--file", JValue.jstr pipePath] := rfl
  have hse : Plain.screenArg (JValue.jstr e) = none := by
    fin_cases he <;> rfl
  have hsp : Plain.screenArg (JValue.jstr pipePath)
      = some (400, "Invalid path in arguments") := by
    unfold Plain.screenArg
    simp only [JValue.pyStr, hnd, Bool.false_eq_true, if_false, hdd, habs, if_true]
  have hscreen :
      Plain.screen [JValue.jstr "fluent", JValue.jstr e, JValue.jstr "pipeline",
        JValue.jstr "--file", JValue.jstr pipePath]
      = some (400, "Invalid path in arguments") := by
    simp only [Plain.screen, show Plain.screenArg (JValue.jstr "fluent") = none from rfl,
      hse, show Plain.screenArg (JValue.jstr "pipeline") = none from rfl,
      show Plain.screenArg (JValue.jstr "--file") = none from rfl, hsp]
  rw [hbuild, runStage_screened runner dbg _ _ _ 400 "Invalid path in arguments" hscreen]

/-- C10 (amended): in frontend.py, when all fields are strings and the
engine is allow-listed, supplying non-empty config content within the size
bound, or non-empty pipelineFile content within the size bound (with any
config content also within the bound), stages the corresponding temp file
and the screen then necessarily rejects the request: the response is some
400 error, no process is ever started, and the staged absolute-path temp
file is already on disk.  The error is the path error exactly when every
earlier vector element is clean (shown for both the config-only and the
pipelineFile-only request); a dangerous character in an earlier field
yields the character error instead, and an oversized pipelineFile yields
the size error. -/
theorem C10_absolute_path_rejection :
    (∀ (runner : List JValue → Plain.POut) (dbg : Bool) (cfgPath pipePath : String)
        (reg : List String) (d : Data) (c : String),
      (∀ p ∈ d, p.2.isStr = true) →
      Plain.engineAllowed d = true →
      pyGet d "config" = some (.jstr c) →
      c.isEmpty = false →
      ¬(Secure.MAX_REQUEST_SIZE < c.length) →
      startsWithL "/".data cfgPath.data = true →
      ∃ m, (Plain.execute_fluentCore runner dbg cfgPath pipePath reg d).resp
            = ⟨400, .err m⟩ ∧
        (Plain.execute_fluentCore runner dbg cfgPath pipePath reg d).procs = [] ∧
        cfgPath ∈ (Plain.execute_fluentCore runner dbg cfgPath pipePath reg d).files) ∧
    (∀ (runner : List JValue → Plain.POut) (dbg : Bool)
        (e c cfgPath pipePath : String) (reg : List String),
      e ∈ Secure.ALLOWED_ENGINES →
      c.isEmpty = false →
      ¬(Secure.MAX_REQUEST_SIZE < c.length) →
      cfgPath.data.any (fun ch => Plain.dangerousChars.contains ch) = false →
      containsSubS ".." cfgPath = false →
      startsWithL "/".data cfgPath.data = true →
      Plain.execute_fluentCore runner dbg cfgPath pipePath reg
          [("engine", .jstr e), ("config", .jstr c)]
        = ⟨⟨400, .err "Invalid path in arguments"⟩, [cfgPath], [], [],
            reg ++ [cfgPath]⟩) ∧
    (∀ (runner : List JValue → Plain.POut) (dbg : Bool) (cfgPath pipePath : String)
        (reg : List String) (d : Data) (q : String),
      (∀ p ∈ d, p.2.isStr = true) →
      Plain.engineAllowed d = true →
      pyGet d "pipelineFile" = some (.jstr q) →
      q.isEmpty = false →
      ¬(Secure.MAX_REQUEST_SIZE < q.length) →
      (∀ c, pyGet d "config" = some (.jstr c) → ¬(Secure.MAX_REQUEST_SIZE < c.length)) →
      startsWithL "/".data pipePath.data = true →
      ∃ m, (Plain.execute_fluentCore runner dbg cfgPath pipePath reg d).resp
            = ⟨400, .err m⟩ ∧
        (Plain.execute_fluentCore runner dbg cfgPath pipePath reg d).procs = [] ∧
        pipePath ∈ (Plain.execute_fluentCore runner dbg cfgPath pipePath reg d).files) ∧
    (∀ (runner : List JValue → Plain.POut) (dbg : Bool)
        (e q cfgPath pipePath : String) (reg : List String),
      e ∈ Secure.ALLOWED_ENGINES →
      q.isEmpty = false →
      ¬(Secure.MAX_REQUEST_SIZE < q.length) →
      pipePath.data.any (fun ch => Plain.dangerousChars.contains ch) = false →
      containsSubS ".." pipePath = false →
      startsWithL "/".data pipePath.data = true →
      Plain.execute_fluentCore runner dbg cfgPath pipePath reg
          [("engine", .jstr e), ("pipelineFile", .jstr q)]
        = ⟨⟨400, .err "Invalid path in arguments"⟩, [pipePath], [], [],
            reg ++ [pipePath]⟩) := by
  refine ⟨?_, ?_, ?_, ?_⟩
  · intro runner dbg cfgPath pipePath reg d c hstr heng hcfg hc hlen habs
    exact plain_config_staged_400 runner dbg cfgPath pipePath reg d c
      hstr heng hcfg hc hlen habs
  · intro runner dbg e c cfgPath pipePath reg he hc hlen hnd hdd habs
    exact plain_clean_path_error runner dbg e c cfgPath pipePath reg
      he hc hlen hnd hdd habs
  · intro runner dbg cfgPath pipePath reg d q hstr heng hpipe hq hqlen hcfglen habs
    exact plain_pipe_staged_400 runner dbg cfgPath pipePath reg d q
      hstr heng hpipe hq hqlen hcfglen habs
  · intro runner dbg e q cfgPath pipePath reg he hq hqlen hnd hdd habs
    exact plain_clean_pipe_error runner dbg e q cfgPath pipePath reg
      he hq hqlen hnd hdd habs

/-- C10 witness: all four parts of the amended theorem applied to concrete
requests — the config request dCfg and a pipelineFile-only request, each
with its staged absolute temp path. -/
theorem C10_absolute_path_rejection_witness :
    (∃ m, (Plain.execute_fluentCore (fun _ => Plain.POut.raised) false
          "/tmp/fluent_temp_a.json" "/tmp/fluent_temp_b.yaml" [] dCfg).resp
          = ⟨400, .err m⟩ ∧
      (Plain.execute_fluentCore (fun _ => Plain.POut.raised) false
          "/tmp/fluent_temp_a.json" "/tmp/fluent_temp_b.yaml" [] dCfg).procs = [] ∧
      "/tmp/fluent_temp_a.json" ∈ (Plain.execute_fluentCore (fun _ => Plain.POut.raised)
          false "/tmp/fluent_temp_a.json" "/tmp/fluent_temp_b.yaml" [] dCfg).files) ∧
    Plain.execute_fluentCore (fun _ => Plain.POut.raised) false
        "/tmp/fluent_temp_a.json" "/tmp/fluent_temp_b.yaml" []
        [("engine", .jstr "openai"), ("config", .jstr "x")]
      = ⟨⟨400, .err "Invalid path in arguments"⟩, ["/tmp/fluent_temp_a.json"], [], [],
          ["/tmp/fluent_temp_a.json"]⟩ ∧
    (∃ m, (Plain.execute_fluentCore (fun _ => Plain.POut.raised) false
          "/tmp/fluent_temp_a.json" "/tmp/fluent_temp_b.yaml" []
          [("engine", .jstr "openai"), ("pipelineFile", .jstr "x")]).resp
          = ⟨400, .err m⟩ ∧
      (Plain.execute_fluentCore (fun _ => Plain.POut.raised) false
          "/tmp/fluent_temp_a.json" "/tmp/fluent_temp_b.yaml" []
          [("engine", .jstr "openai"), ("pipelineFile", .jstr "x")]).procs = [] ∧
      "/tmp/fluent_temp_b.yaml" ∈ (Plain.execute_fluentCore (fun _ => Plain.POut.raised)
          false "/tmp/fluent_temp_a.json" "/tmp/fluent_temp_b.yaml" []
          [("engine", .jstr "openai"), ("pipelineFile", .jstr "x")]).files) ∧
    Plain.execute_fluentCore (fun _ => Plain.POut.raised) false
        "/tmp/fluent_temp_a.json" "/tmp/fluent_temp_b.yaml" []
        [("engine", .jstr "openai"), ("pipelineFile", .jstr "x")]
      = ⟨⟨400, .err "Invalid path in arguments"⟩, ["/tmp/fluent_temp_b.yaml"], [], [],
          ["/tmp/fluent_temp_b.yaml"]⟩ := by
  refine ⟨?_, ?_, ?_, ?_⟩
  · exact C10_absolute_path_rejection.1 (fun _ => Plain.POut.raised) false
      "/tmp/fluent_temp_a.json" "/tmp/fluent_temp_b.yaml" [] dCfg "x"
      (by decide) (by decide) (by decide) (by decide) (by decide) (by decide)
  · exact C10_absolute_path_rejection.2.1 (fun _ => Plain.POut.raised) false
      "openai" "x" "/tmp/fluent_temp_a.json" "/tmp/fluent_temp_b.yaml" []
      (by decide) (by decide) (by decide) (by decide) (by decide) (by decide)
  · exact C10_absolute_path_rejection.2.2.1 (fun _ => Plain.POut.raised) false
      "/tmp/fluent_temp_a.json" "/tmp/fluent_temp_b.yaml" []
      [("engine", .jstr "openai"), ("pipelineFile", .jstr "x")] "x"
      (by decide) (by decide) (by decide) (by decide) (by decide)
      (fun c hc => by
        rw [show pyGet [("engine", JValue.jstr "openai"),
          ("pipelineFile", JValue.jstr "x")] "config" = none from rfl] at hc
        simp at hc)
      (by decide)
  · exact C10_absolute_path_rejection.2.2.2 (fun _ => Plain.POut.raised) false
      "openai" "x" "/tmp/fluent_temp_a.json" "/tmp/fluent_temp_b.yaml" []
      (by decide) (by decide) (by decide) (by decide) (by decide) (by decide)

end FluentCli
